import Mathlib

/-!
# Verification of the CBB_Daily_Picks edge pipeline

Shallow embedding of the team-identity reconciliation and edge-computation
core of the repository: `model.py` (`_clean`, `_pair_key`, `_prep_ratings`,
`compute_edges`) and `run.py` (`norm_team`, `canonical`, `join_and_score`).

Modelling conventions:
* Float columns become `Option ℚ`; `none` plays the role of NaN / a missing
  value, and arithmetic propagates `none` exactly as IEEE NaN propagates
  through `+`, `-`.  Comparisons against NaN are `false`, as in Python.
* Python regex classes `\w` and `\s` and `str.upper`/`str.lower` are
  modelled over ASCII (the repository's team names are ASCII).
* `pandas.merge(..., how="left")` keeps every left row in order, expanding a
  left row once per matching right row and emitting one all-NaN-extended row
  when there is no match.
* `pandas.sort_values` is modelled as sorting the index-annotated row list by
  a total order on (key, original position): that is exactly the stable sort
  that pandas' lexsort performs, and for the single-key `quicksort` call in
  `run.py` it agrees with pandas on the inputs considered here (distinct keys;
  all-NaN rows are appended in original order).
-/

/-! ## ASCII character classes (models of Python's str/regex behaviour) -/

/-- Letters `a`–`z`. -/
def isLowerA (c : Char) : Bool := 97 ≤ c.toNat && c.toNat ≤ 122

/-- Letters `A`–`Z`. -/
def isUpperA (c : Char) : Bool := 65 ≤ c.toNat && c.toNat ≤ 90

/-- Digits `0`–`9`. -/
def isDigitA (c : Char) : Bool := 48 ≤ c.toNat && c.toNat ≤ 57

/-- ASCII model of Python `str.lower` on one character. -/
def lowCh (c : Char) : Char := if isUpperA c then Char.ofNat (c.toNat + 32) else c

/-- ASCII model of Python `str.upper` on one character. -/
def upCh (c : Char) : Char := if isLowerA c then Char.ofNat (c.toNat - 32) else c

/-- Python regex `\w` (word character), restricted to ASCII. -/
def isWordCh (c : Char) : Bool := isLowerA c || isUpperA c || isDigitA c || c == '_'

/-- Python regex `\s` / `str.strip` whitespace: space, tab, LF, CR, FF, VT. -/
def isSpaceCh (c : Char) : Bool :=
  c == ' ' || c == '\t' || c == '\n' || c == '\r' || c == Char.ofNat 12 || c == Char.ofNat 11

/-- The regex `[A-Z0-9]` used (negated) by `run.py`'s `NONALNUM`. -/
def isUpperAlnumCh (c : Char) : Bool := isUpperA c || isDigitA c


/-! ## List-of-characters utilities shared by both canonicalizers -/

/-- Python `str.strip()`: drop leading and trailing whitespace. -/
def stripChars (l : List Char) : List Char :=
  ((l.dropWhile isSpaceCh).reverse.dropWhile isSpaceCh).reverse

/-- Python `re.sub(r"\s+", " ", s)`: each maximal whitespace run becomes one space. -/
def collapseWs : List Char → List Char
  | [] => []
  | [c] => if isSpaceCh c then [' '] else [c]
  | a :: b :: t =>
    if isSpaceCh a then
      (if isSpaceCh b then collapseWs (b :: t) else ' ' :: collapseWs (b :: t))
    else a :: collapseWs (b :: t)

/-- Python `str.replace(pat, repl)` (leftmost, non-overlapping), with the list
length as structural fuel; `strReplace` instantiates the fuel so that it never
runs out. An empty pattern acts as the identity. -/
def strReplaceAux (pat repl : List Char) : ℕ → List Char → List Char
  | _, [] => []
  | 0, l => l
  | n + 1, c :: cs =>
    if !pat.isEmpty && pat.isPrefixOf (c :: cs) then
      repl ++ strReplaceAux pat repl n ((c :: cs).drop pat.length)
    else
      c :: strReplaceAux pat repl n cs

/-- Python `str.replace(pat, repl)`. -/
def strReplace (pat repl l : List Char) : List Char := strReplaceAux pat repl l.length l

/-- Dictionary `.get(s, s)` over an association list (Python `ALIASES.get(s, s)`). -/
def aliasGet (tbl : List (String × String)) (s : String) : String :=
  match tbl.find? (fun p => p.1 == s) with
  | some p => p.2
  | none => s

/-! ## model.py — `_clean` and `_pair_key` -/

/-- The dash variants `‐ – — −` normalised by `_clean`
(U+2010, U+2013, U+2014, U+2212). -/
def dashVariants : List Char := [Char.ofNat 8208, Char.ofNat 8211, Char.ofNat 8212, Char.ofNat 8722]

/-- Python `re.sub(r"[‐–—−]", "-", s)`. -/
def dashSub (l : List Char) : List Char :=
  l.map fun c => if dashVariants.contains c then '-' else c

/-- Python `s.replace("&", "and")`. -/
def ampSub (l : List Char) : List Char :=
  l.flatMap fun c => if c == '&' then ['a', 'n', 'd'] else [c]

/-- Characters kept by `re.sub(r"[^\w\s\-']", " ", s)`. -/
def punctKeep (c : Char) : Bool := isWordCh c || isSpaceCh c || c == '-' || c == '\''

/-- Python `re.sub(r"[^\w\s\-']", " ", s)`: every other character becomes a space. -/
def punctSub (l : List Char) : List Char :=
  l.map fun c => if punctKeep c then c else ' '

/-- The body of `_clean` before the alias lookup, following the source order:
`strip`, dash normalisation, `&`→`and`, punctuation→space,
whitespace collapse, `strip`, `lower`. -/
def cleanBase (s : String) : String :=
  ⟨(stripChars (collapseWs (punctSub (ampSub (dashSub (stripChars s.data)))))).map lowCh⟩

/-- The `ALIASES` table of model.py. -/
def cleanAliases : List (String × String) :=
  [("uc santa barbara", "cal santa barbara"),
   ("uc riverside", "cal riverside"),
   ("st. john's", "st johns"),
   ("saint joseph's", "saint josephs"),
   ("saint francis (pa)", "saint francis"),
   ("cal state northridge", "cal st. northridge"),
   ("csu northridge", "cal st. northridge"),
   ("central connecticut state", "central connecticut"),
   ("william & mary", "william and mary"),
   ("texas a&m-corpus christi", "texas a&m corpus chris"),
   ("texas a&m corpus christi", "texas a&m corpus chris"),
   ("mount st. mary's", "mount st. mary's")]

/-- model.py `_clean` on a (non-null) string. -/
def _clean (s : String) : String := aliasGet cleanAliases (cleanBase s)

/-- model.py `_clean` including the `if s is None: return ""` branch. -/
def _cleanNA : Option String → String
  | none => ""
  | some s => _clean s

/-- Python's `<` on strings: lexicographic comparison of code points. -/
def strLtB : List Char → List Char → Bool
  | [], [] => false
  | [], _ :: _ => true
  | _ :: _, [] => false
  | c :: cs, d :: ds =>
    if c.toNat < d.toNat then true else if d.toNat < c.toNat then false else strLtB cs ds

/-- model.py `_pair_key`: `"|".join(sorted([_clean h, _clean a]))`. -/
def _pair_key (h a : String) : String :=
  let h1 := _clean h
  let a1 := _clean a
  if strLtB a1.data h1.data then a1 ++ "|" ++ h1 else h1 ++ "|" ++ a1

/-! ## run.py — `norm_team` and `canonical` -/

/-- run.py `norm_team` on a (non-NaN) string: the chain of `str.replace`
calls followed by uppercasing and `NONALNUM.sub("", ·)` (dropping every
character outside `[A-Z0-9]`). -/
def norm_team (s : String) : String :=
  let l := s.data
  let l := strReplace "St.".data "State".data l
  let l := strReplace "UC-".data "UC ".data l
  let l := strReplace " Cal ".data " California ".data l
  let l := strReplace "&".data "and".data l
  let l := strReplace ['\''] [] l
  ⟨(l.map upCh).filter isUpperAlnumCh⟩

/-- run.py `norm_team` including the `if pd.isna(s): return ""` branch. -/
def norm_teamNA : Option String → String
  | none => ""
  | some s => norm_team s

/-- The `ALIASES` table of run.py. -/
def runAliases : List (String × String) :=
  [("OLEMISS", "MISSISSIPPI"),
   ("CENTRALCONNECTICUTSTATE", "CENTRALCONNECTICUT"),
   ("SAINTJOHNS", "STJOHNS"),
   ("SAINTJOSEPHS", "STJOSEPHS"),
   ("ILLCHICAGO", "UIC"),
   ("TEXASAAMCORPUSCHRISTI", "TEXASAAMCORPUSCHRISTI"),
   ("LOYOLOMARYMOUNT", "LOYOLAMARYMOUNT"),
   ("UCALIFORNIASANTABARBARA", "UCSB")]

/-- run.py `canonical`. -/
def canonical (s : String) : String := aliasGet runAliases (norm_team s)

/-- run.py `canonical` on a possibly-NaN input. -/
def canonicalNA (o : Option String) : String := aliasGet runAliases (norm_teamNA o)


/-! ## Nullable numerics: `Option ℚ` models float columns with NaN -/

/-- Addition on `ℚ` computed through `mkRat`, so that the kernel can evaluate
it on literals; equal to `+` by `qAdd_eq`. -/
def qAdd (a b : ℚ) : ℚ := mkRat (a.num * (b.den : ℤ) + b.num * (a.den : ℤ)) (a.den * b.den)

/-- Subtraction on `ℚ` computed through `mkRat`; equal to `-` by `qSub_eq`. -/
def qSub (a b : ℚ) : ℚ := mkRat (a.num * (b.den : ℤ) - b.num * (a.den : ℤ)) (a.den * b.den)



/-- NaN-propagating addition. -/
def oAdd : Option ℚ → Option ℚ → Option ℚ
  | some a, some b => some (qAdd a b)
  | _, _ => none

/-- NaN-propagating subtraction. -/
def oSub : Option ℚ → Option ℚ → Option ℚ
  | some a, some b => some (qSub a b)
  | _, _ => none

/-- NaN-propagating negation (`-df["home_spread"]`). -/
def oNeg : Option ℚ → Option ℚ
  | some a => some (-a)
  | none => none

/-- Python `x >= t` where `x` may be NaN (NaN comparisons are `False`). -/
def oGeB (a : Option ℚ) (t : ℚ) : Bool :=
  match a with
  | some x => decide (t ≤ x)
  | none => false

/-- Python `x <= t` where `x` may be NaN. -/
def oLeB (a : Option ℚ) (t : ℚ) : Bool :=
  match a with
  | some x => decide (x ≤ t)
  | none => false

/-- Computes `⌊q * 10 + 1/2⌋`: the tenths digit of `q`, rounding half up.  Python's
`%.1f` rounds the double with ties to even; the two agree on every input
appearing in this file (all are exact tenths, where no rounding happens). -/
def roundTenths (q : ℚ) : ℤ := Int.fdiv (20 * q.num + (q.den : ℤ)) (2 * (q.den : ℤ))

/-- Python `f"{q:+.1f}"`: sign, then the value rounded to one decimal. -/
def fmtSigned1 (q : ℚ) : String :=
  let m : ℤ := roundTenths q
  let sgn := if m < 0 then "-" else "+"
  let a := m.natAbs
  sgn ++ toString (a / 10) ++ "." ++ toString (a % 10)

/-! ## The two model-margin formulas (claim C7) -/

/-- run.py lines 334–336: `(h_AdjO - a_AdjD) - (a_AdjO - h_AdjD) + HCA_PTS`. -/
def modelMarginRun (hO hD aO aD hca : ℚ) : ℚ := qAdd (qSub (qSub hO aD) (qSub aO hD)) hca


/-- model.py `_prep_ratings` line 63: `Net = AdjO - AdjD`. -/
def netEff (o d : ℚ) : ℚ := qSub o d

/-- model.py line 91 written over `netEff`: `(h_Net - a_Net) + hca_points`. -/
def modelMarginModel (hO hD aO aD hca : ℚ) : ℚ := qAdd (qSub (netEff hO hD) (netEff aO aD)) hca


/-! ## Stable sort (pandas `sort_values`)

pandas sorts stably for the multi-key lexsort in model.py; we embed
`sort_values` as sorting the index-annotated row list by a *total* order on
`(key, original index)`, which is exactly that stable order.  `run.py` uses a
single-key `quicksort`, which pandas does not promise to be stable on tied
non-null keys; on all inputs considered in the theorems below the two agree
(keys are distinct, and pandas appends all-NaN rows in original order). -/

/-- Strict lexicographic order on `(ℕ, ℚ, ℕ)` sort keys. -/
def lt3 (x y : ℕ × ℚ × ℕ) : Prop :=
  x.1 < y.1 ∨ (x.1 = y.1 ∧ (x.2.1 < y.2.1 ∨ (x.2.1 = y.2.1 ∧ x.2.2 < y.2.2)))

instance (x y : ℕ × ℚ × ℕ) : Decidable (lt3 x y) := by unfold lt3; infer_instance

/-- Reflexive closure of `lt3`; a total preorder used for sorting. -/
def le3 (x y : ℕ × ℚ × ℕ) : Prop := lt3 x y ∨ x = y

instance (x y : ℕ × ℚ × ℕ) : Decidable (le3 x y) := by unfold le3; infer_instance

/-- pandas `sort_values`: stable sort of rows by a key derived from the row
and its original position. -/
def stableSortBy {α : Type} (key : ℕ × α → ℕ × ℚ × ℕ) (l : List α) : List α :=
  (l.enum.insertionSort fun a b => le3 (key a) (key b)).map Prod.snd

/-! ## model.py `compute_edges` -/

/-- A row of the ratings table handed to `compute_edges`
(columns already standardised to `Team, AdjO, AdjD`). -/
structure RatingRow where
  Team : String
  AdjO : Option ℚ
  AdjD : Option ℚ
deriving DecidableEq

/-- A row of `_prep_ratings`' result: `Team, team_clean, AdjO, AdjD, Net`. -/
structure PrepRow where
  Team : String
  team_clean : String
  AdjO : Option ℚ
  AdjD : Option ℚ
  Net : Option ℚ
deriving DecidableEq

/-- model.py `_prep_ratings` (the column-name normalisation is the identity
here because `RatingRow` is already standardised). -/
def _prep_ratings (rs : List RatingRow) : List PrepRow :=
  rs.map fun r =>
    { Team := r.Team, team_clean := _clean r.Team,
      AdjO := r.AdjO, AdjD := r.AdjD, Net := oSub r.AdjO r.AdjD }

/-- A row of the odds table handed to `compute_edges` (docstring schema:
`home, away, home_spread, market_home_margin`; `likely_non_board` is unused). -/
structure OddsRowM where
  home : String
  away : String
  home_spread : Option ℚ
  market_home_margin : Option ℚ
deriving DecidableEq

/-- A row after the two left merges and the margin/edge column assignments. -/
structure JoinedRowM where
  home : String
  away : String
  home_spread : Option ℚ
  market_home_margin : Option ℚ
  home_clean : String
  away_clean : String
  key : String
  h_Team : Option String
  h_AdjO : Option ℚ
  h_AdjD : Option ℚ
  h_Net : Option ℚ
  a_Team : Option String
  a_AdjO : Option ℚ
  a_AdjD : Option ℚ
  a_Net : Option ℚ
  model_home_margin : Option ℚ
  edge_pts : Option ℚ
deriving DecidableEq

/-- The ratings rows whose `team_clean` equals the lookup key. -/
def matchRows (k : String) (rs : List PrepRow) : List PrepRow :=
  rs.filter fun r => r.team_clean == k

/-- One left-merge lookup: every matching right row, or a single `none`
(all-NaN extension) when there is no match. -/
def leftMatches (k : String) (rs : List PrepRow) : List (Option PrepRow) :=
  match matchRows k rs with
  | [] => [none]
  | ms => ms.map some

/-- Build one joined row of `compute_edges` (merge columns plus the
`model_home_margin` and `edge_pts` assignments of lines 91 and 95). -/
def mkJoinedM (hca : ℚ) (o : OddsRowM) (hm am : Option PrepRow) : JoinedRowM :=
  let hNet : Option ℚ := hm.bind fun p => p.Net
  let aNet : Option ℚ := am.bind fun p => p.Net
  let model := oAdd (oSub hNet aNet) (some hca)
  { home := o.home, away := o.away, home_spread := o.home_spread,
    market_home_margin := o.market_home_margin,
    home_clean := _clean o.home, away_clean := _clean o.away,
    key := _pair_key o.home o.away,
    h_Team := hm.map fun p => p.Team,
    h_AdjO := hm.bind fun p => p.AdjO, h_AdjD := hm.bind fun p => p.AdjD,
    h_Net := hNet,
    a_Team := am.map fun p => p.Team,
    a_AdjO := am.bind fun p => p.AdjO, a_AdjD := am.bind fun p => p.AdjD,
    a_Net := aNet,
    model_home_margin := model,
    edge_pts := oSub model o.market_home_margin }

/-- The odds table after cleaning, the two left merges, and the margin/edge
columns — everything of `compute_edges` up to the ticket column. -/
def joinedRows (rs : List PrepRow) (os : List OddsRowM) (hca : ℚ) : List JoinedRowM :=
  os.flatMap fun o =>
    (leftMatches (_clean o.home) rs).flatMap fun hm =>
      (leftMatches (_clean o.away) rs).map fun am => mkJoinedM hca o hm am

/-- model.py `_ticket`.  The away branch formats with `f"... {(-mhm):+ .1f}"`;
`"+ .1f"` is an invalid Python format specifier, so that branch raises
`ValueError` — modelled as `Except.error ()`. -/
def _ticket (edge_threshold : ℚ) (row : JoinedRowM) : Except Unit String :=
  match row.market_home_margin with
  | none => Except.ok ""
  | some mhm =>
    if oGeB row.edge_pts edge_threshold then
      Except.ok ⟨strReplace "+-".data "-".data (row.home ++ " " ++ fmtSigned1 mhm).data⟩
    else if oLeB row.edge_pts (-edge_threshold) then
      Except.error ()
    else
      Except.ok ""

/-- The output schema of `compute_edges` (the eleven kept columns). -/
structure OutRowM where
  home : String
  away : String
  home_spread : Option ℚ
  h_AdjO : Option ℚ
  h_AdjD : Option ℚ
  a_AdjO : Option ℚ
  a_AdjD : Option ℚ
  model_home_margin : Option ℚ
  market_home_margin : Option ℚ
  edge_pts : Option ℚ
  ticket : String
deriving DecidableEq

/-- Column selection of `compute_edges` line 115. -/
def toOutM (t : String) (j : JoinedRowM) : OutRowM :=
  { home := j.home, away := j.away, home_spread := j.home_spread,
    h_AdjO := j.h_AdjO, h_AdjD := j.h_AdjD, a_AdjO := j.a_AdjO, a_AdjD := j.a_AdjD,
    model_home_margin := j.model_home_margin,
    market_home_margin := j.market_home_margin,
    edge_pts := j.edge_pts, ticket := t }

/-- The `o["ticket"] = o.apply(_ticket, axis=1)` step: the first raising row aborts the
whole `apply` call. -/
def ticketed (thr : ℚ) : List JoinedRowM → Except Unit (List OutRowM)
  | [] => Except.ok []
  | j :: js =>
    match _ticket thr j, ticketed thr js with
    | Except.ok t, Except.ok rest => Except.ok (toOutM t j :: rest)
    | Except.error e, _ => Except.error e
    | _, Except.error e => Except.error e

/-- Sort key of `compute_edges` line 124:
`sort_values(["__has_line", "edge_pts"], ascending=[False, False])` with the
default `na_position="last"` applied per key by pandas' stable lexsort. -/
def modelSortKey (p : ℕ × OutRowM) : ℕ × ℚ × ℕ :=
  let g1 : ℕ := if p.2.market_home_margin.isSome then 0 else 1
  match p.2.edge_pts with
  | some e => (g1 * 2, -e, p.1)
  | none => (g1 * 2 + 1, 0, p.1)

/-- model.py `compute_edges` (the diagnostics frame is not modelled). -/
def compute_edges (ratings : List RatingRow) (odds : List OddsRowM)
    (hca edge_threshold : ℚ) : Except Unit (List OutRowM) :=
  match ticketed edge_threshold (joinedRows (_prep_ratings ratings) odds hca) with
  | Except.error e => Except.error e
  | Except.ok rows => Except.ok (stableSortBy modelSortKey rows)

/-! ## run.py `join_and_score` -/

/-- A ratings row as produced by run.py's `_coerce_ratings`:
`Team, AdjO, AdjD, TEAM_KEY`. -/
structure RatingRowR where
  Team : String
  AdjO : Option ℚ
  AdjD : Option ℚ
  TEAM_KEY : String
deriving DecidableEq

/-- An odds row as produced by run.py's `_coerce_odds`:
`home, away, home_spread, HOME_KEY, AWAY_KEY`. -/
structure OddsRowR where
  home : String
  away : String
  home_spread : Option ℚ
  HOME_KEY : String
  AWAY_KEY : String
deriving DecidableEq

/-- An output row of `join_and_score` (the eleven kept columns). -/
structure JRowR where
  home : String
  away : String
  home_spread : Option ℚ
  h_AdjO : Option ℚ
  h_AdjD : Option ℚ
  a_AdjO : Option ℚ
  a_AdjD : Option ℚ
  model_home_margin : Option ℚ
  market_home_margin : Option ℚ
  edge_pts : Option ℚ
  ticket : String
deriving DecidableEq

/-- The ratings rows whose `TEAM_KEY` equals the lookup key. -/
def matchRowsR (k : String) (rs : List RatingRowR) : List RatingRowR :=
  rs.filter fun r => r.TEAM_KEY == k

/-- One left-merge lookup against the ratings self-join of run.py. -/
def leftMatchesR (k : String) (rs : List RatingRowR) : List (Option RatingRowR) :=
  match matchRowsR k rs with
  | [] => [none]
  | ms => ms.map some

/-- The `modelMarginRun` formula lifted to NaN-propagating columns (run.py line 334). -/
def oModelRun (hO hD aO aD : Option ℚ) (hca : ℚ) : Option ℚ :=
  match hO, hD, aO, aD with
  | some a, some b, some c, some d => some (modelMarginRun a b c d hca)
  | _, _, _, _ => none

/-- run.py `fmt_ticket`: always `f"{home} {home_spread:+.1f}"`; a NaN spread
formats as `"+nan"` (formatting NaN does not raise, so the `except` branch is
unreachable on well-formed rows). -/
def fmt_ticket (home : String) (hs : Option ℚ) : String :=
  match hs with
  | some q => home ++ " " ++ fmtSigned1 q
  | none => home ++ " +nan"

/-- Build one joined-and-scored row of `join_and_score`. -/
def mkJRow (hca : ℚ) (o : OddsRowR) (hm am : Option RatingRowR) : JRowR :=
  let hO := hm.bind fun r => r.AdjO
  let hD := hm.bind fun r => r.AdjD
  let aO := am.bind fun r => r.AdjO
  let aD := am.bind fun r => r.AdjD
  let model := oModelRun hO hD aO aD hca
  let market := oNeg o.home_spread
  { home := o.home, away := o.away, home_spread := o.home_spread,
    h_AdjO := hO, h_AdjD := hD, a_AdjO := aO, a_AdjD := aD,
    model_home_margin := model,
    market_home_margin := market,
    edge_pts := oSub model market,
    ticket := fmt_ticket o.home o.home_spread }

/-- The merged and scored rows of `join_and_score`, before the final sort. -/
def joinedRowsR (ratings : List RatingRowR) (odds : List OddsRowR) (hca : ℚ) : List JRowR :=
  odds.flatMap fun o =>
    (leftMatchesR o.HOME_KEY ratings).flatMap fun hm =>
      (leftMatchesR o.AWAY_KEY ratings).map fun am => mkJRow hca o hm am

/-- Sort key of run.py line 363:
`sort_values("edge_pts", ascending=False, na_position="last")`. -/
def runSortKey (p : ℕ × JRowR) : ℕ × ℚ × ℕ :=
  match p.2.edge_pts with
  | some e => (0, -e, p.1)
  | none => (1, 0, p.1)

/-- run.py `join_and_score`. -/
def join_and_score (ratings : List RatingRowR) (odds : List OddsRowR) (hca : ℚ) : List JRowR :=
  stableSortBy runSortKey (joinedRowsR ratings odds hca)


/-! ## Frame effects (claim C10)

To state that `compute_edges` and `join_and_score` do not mutate their input
dataframes we track Python object identity explicitly: a `Store` maps object
ids to table contents, pandas operations that return a fresh frame
(`copy`, `rename`, `add_prefix`, `merge`, `sort_values`, `reset_index`,
column selection) allocate a new id, and in-place column assignments
(`df[col] = ...`) write to the id currently bound to the variable. -/

/-- A heap of pandas dataframes, addressed by allocation order. -/
structure Store (α : Type) where
  tabs : List α

/-- Read an object id (out-of-range reads give `default`; never exercised). -/
def Store.read {α : Type} [Inhabited α] (σ : Store α) (i : ℕ) : α := σ.tabs.getD i default

/-- Allocate a fresh object holding `t`, returning its id. -/
def Store.alloc {α : Type} (σ : Store α) (t : α) : Store α × ℕ := (⟨σ.tabs ++ [t]⟩, σ.tabs.length)

/-- Overwrite the object at id `i` (an in-place dataframe mutation). -/
def Store.write {α : Type} (σ : Store α) (i : ℕ) (t : α) : Store α := ⟨σ.tabs.set i t⟩

/-- The table contents a stored object can hold, at the granularity of the
pipeline stages that are ever written. -/
inductive PyObj where
  | ratingsM : List RatingRow → PyObj
  | prepTC : List (RatingRow × String) → PyObj
  | prepFull : List PrepRow → PyObj
  | oddsM : List OddsRowM → PyObj
  | oddsHC : List (OddsRowM × String) → PyObj
  | oddsAC : List (OddsRowM × String × String) → PyObj
  | oddsKey : List (OddsRowM × String × String × String) → PyObj
  | mergedH : List (OddsRowM × String × String × String × Option PrepRow) → PyObj
  | mergedHA : List (OddsRowM × String × String × String × Option PrepRow × Option PrepRow) → PyObj
  | joinedM : List JoinedRowM → PyObj
  | outM : List OutRowM → PyObj
  | outHL : List (OutRowM × Bool) → PyObj
  | ratingsR : List RatingRowR → PyObj
  | oddsR : List OddsRowR → PyObj
  | mergedR : List (OddsRowR × Option RatingRowR × Option RatingRowR) → PyObj
  | outR : List JRowR → PyObj

instance : Inhabited PyObj := ⟨PyObj.ratingsM []⟩

/-- Contents of a `.ratingsM` object (defaulting defensively otherwise). -/
def PyObj.asRatingsM : PyObj → List RatingRow
  | PyObj.ratingsM rs => rs
  | _ => []

/-- Contents of an `.oddsM` object. -/
def PyObj.asOddsM : PyObj → List OddsRowM
  | PyObj.oddsM os => os
  | _ => []

/-- Contents of a `.ratingsR` object. -/
def PyObj.asRatingsR : PyObj → List RatingRowR
  | PyObj.ratingsR rs => rs
  | _ => []

/-- Contents of an `.oddsR` object. -/
def PyObj.asOddsR : PyObj → List OddsRowR
  | PyObj.oddsR os => os
  | _ => []

/-- Python `df["team_clean"] = df["Team"].map(_clean)`. -/
def addTeamClean (rs : List RatingRow) : List (RatingRow × String) :=
  rs.map fun r => (r, _clean r.Team)

/-- Python `df["Net"] = df["AdjO"] - df["AdjD"]` followed by the column selection. -/
def addNet (rs : List (RatingRow × String)) : List PrepRow :=
  rs.map fun p =>
    { Team := p.1.Team, team_clean := p.2, AdjO := p.1.AdjO, AdjD := p.1.AdjD,
      Net := oSub p.1.AdjO p.1.AdjD }

/-- Python `o["home_clean"] = o["home"].map(_clean)`. -/
def addHomeClean (os : List OddsRowM) : List (OddsRowM × String) :=
  os.map fun o => (o, _clean o.home)

/-- Python `o["away_clean"] = o["away"].map(_clean)`. -/
def addAwayClean (os : List (OddsRowM × String)) : List (OddsRowM × String × String) :=
  os.map fun p => (p.1, p.2, _clean p.1.away)

/-- Python `o["__key"] = o.apply(lambda x: _pair_key(...), axis=1)`. -/
def addPairKey (os : List (OddsRowM × String × String)) :
    List (OddsRowM × String × String × String) :=
  os.map fun p => (p.1, p.2.1, p.2.2, _pair_key p.1.home p.1.away)

/-- First left merge of `compute_edges` (on `home_clean = h_team_clean`). -/
def mergeHomeSide (os : List (OddsRowM × String × String × String)) (rs : List PrepRow) :
    List (OddsRowM × String × String × String × Option PrepRow) :=
  os.flatMap fun p => (leftMatches p.2.1 rs).map fun hm => (p.1, p.2.1, p.2.2.1, p.2.2.2, hm)

/-- Second left merge of `compute_edges` (on `away_clean = a_team_clean`). -/
def mergeAwaySide (os : List (OddsRowM × String × String × String × Option PrepRow))
    (rs : List PrepRow) :
    List (OddsRowM × String × String × String × Option PrepRow × Option PrepRow) :=
  os.flatMap fun p =>
    (leftMatches p.2.2.1 rs).map fun am => (p.1, p.2.1, p.2.2.1, p.2.2.2.1, p.2.2.2.2, am)

/-- The `model_home_margin`/`edge_pts` assignments on the merged frame. -/
def addMargins (hca : ℚ)
    (os : List (OddsRowM × String × String × String × Option PrepRow × Option PrepRow)) :
    List JoinedRowM :=
  os.map fun p => mkJoinedM hca p.1 p.2.2.2.2.1 p.2.2.2.2.2

/-- Python `out["__has_line"] = out["market_home_margin"].notna()`. -/
def addHasLine (os : List OutRowM) : List (OutRowM × Bool) :=
  os.map fun r => (r, r.market_home_margin.isSome)

/-- model.py `compute_edges` over the object store: returns the final store
together with the output object's id, or the store at the raise point when
`_ticket` raises.  The allocation/write sequence mirrors the source line by
line: `copy`/`rename`/`merge`/column selection allocate a fresh object,
column assignments write to the object the variable is bound to.  Ids are the
allocation order `n, n+1, …` above the caller's `n` objects. -/
def computeEdgesSt (σ : Store PyObj) (rid oid : ℕ) (hca thr : ℚ) :
    Store PyObj × Except Unit ℕ :=
  let n := σ.tabs.length
  let rs0 := (σ.read rid).asRatingsM
  let os0 := (σ.read oid).asOddsM
  -- _prep_ratings: df = ratings.copy()                          (id n)
  let σ1 := (σ.alloc (σ.read rid)).1
  -- df = df.rename(columns=...): fresh frame, same contents     (id n+1)
  let σ2 := (σ1.alloc (σ.read rid)).1
  -- df["team_clean"] = df["Team"].map(_clean)                   (writes n+1)
  let σ3 := σ2.write (n + 1) (PyObj.prepTC (addTeamClean rs0))
  -- df["Net"] = df["AdjO"] - df["AdjD"]                         (writes n+1)
  let prepped := addNet (addTeamClean rs0)
  let σ4 := σ3.write (n + 1) (PyObj.prepFull prepped)
  -- return df[["Team", "team_clean", "AdjO", "AdjD", "Net"]]    (id n+2)
  let σ5 := (σ4.alloc (PyObj.prepFull prepped)).1
  -- o = odds.copy()                                             (id n+3)
  let σ6 := (σ5.alloc (σ.read oid)).1
  -- o["home_clean"], o["away_clean"], o["__key"]                (write n+3)
  let σ7 := σ6.write (n + 3) (PyObj.oddsHC (addHomeClean os0))
  let σ8 := σ7.write (n + 3) (PyObj.oddsAC (addAwayClean (addHomeClean os0)))
  let keyed := addPairKey (addAwayClean (addHomeClean os0))
  let σ9 := σ8.write (n + 3) (PyObj.oddsKey keyed)
  -- o = o.merge(r.add_prefix("h_"), ...)                        (id n+4)
  let σ10 := (σ9.alloc (PyObj.mergedH (mergeHomeSide keyed prepped))).1
  -- o = o.merge(r.add_prefix("a_"), ...)                        (id n+5)
  let merged := mergeAwaySide (mergeHomeSide keyed prepped) prepped
  let σ11 := (σ10.alloc (PyObj.mergedHA merged)).1
  -- o["model_home_margin"] = ...; o["edge_pts"] = ...           (write n+5)
  let joined := addMargins hca merged
  let σ12 := σ11.write (n + 5) (PyObj.joinedM joined)
  let σ13 := σ12.write (n + 5) (PyObj.joinedM joined)
  -- o["ticket"] = o.apply(_ticket, axis=1): may raise ValueError
  match ticketed thr joined with
  | Except.error e => (σ13, Except.error e)
  | Except.ok rows =>
    let σ14 := σ13.write (n + 5) (PyObj.outM rows)
    -- out = o[[...]].copy()                                     (id n+6)
    let σ15 := (σ14.alloc (PyObj.outM rows)).1
    -- out["__has_line"] = out["market_home_margin"].notna()     (write n+6)
    let σ16 := σ15.write (n + 6) (PyObj.outHL (addHasLine rows))
    -- out = out.sort_values(...).drop(columns="__has_line")     (id n+7)
    let σ17 := (σ16.alloc (PyObj.outM (stableSortBy modelSortKey rows))).1
    -- out.reset_index(drop=True)                                (id n+8)
    let σ18 := (σ17.alloc (PyObj.outM (stableSortBy modelSortKey rows))).1
    (σ18, Except.ok (n + 8))

/-- The `model/market/edge/ticket` assignments of `join_and_score`. -/
def addScoresR (hca : ℚ) (os : List (OddsRowR × Option RatingRowR × Option RatingRowR)) :
    List JRowR :=
  os.map fun p => mkJRow hca p.1 p.2.1 p.2.2

/-- run.py `join_and_score` over the object store: returns the final store and
the id of the returned frame (same conventions as `computeEdgesSt`). -/
def joinAndScoreSt (σ : Store PyObj) (rid oid : ℕ) (hca : ℚ) : Store PyObj × ℕ :=
  let n := σ.tabs.length
  let rs0 := (σ.read rid).asRatingsR
  let os0 := (σ.read oid).asOddsR
  -- r_home = ratings.add_prefix("h_"); r_home = r_home.rename   (ids n, n+1)
  let σ1 := (σ.alloc (σ.read rid)).1
  let σ2 := (σ1.alloc (σ.read rid)).1
  -- r_away = ratings.add_prefix("a_"); r_away = r_away.rename   (ids n+2, n+3)
  let σ3 := (σ2.alloc (σ.read rid)).1
  let σ4 := (σ3.alloc (σ.read rid)).1
  -- df = odds.merge(r_home, ...).merge(r_away, ...)             (ids n+4, n+5)
  let merged : List (OddsRowR × Option RatingRowR × Option RatingRowR) :=
    os0.flatMap fun o =>
      (leftMatchesR o.HOME_KEY rs0).flatMap fun hm =>
        (leftMatchesR o.AWAY_KEY rs0).map fun am => (o, hm, am)
  let σ5 := (σ4.alloc (PyObj.mergedR merged)).1
  let σ6 := (σ5.alloc (PyObj.mergedR merged)).1
  -- the four column assignments on the merged frame             (write n+5)
  let scored := addScoresR hca merged
  let σ7 := σ6.write (n + 5) (PyObj.outR scored)
  let σ8 := σ7.write (n + 5) (PyObj.outR scored)
  let σ9 := σ8.write (n + 5) (PyObj.outR scored)
  let σ10 := σ9.write (n + 5) (PyObj.outR scored)
  -- df = df.sort_values(...).reset_index(drop=True); df[keep]   (ids n+6..n+8)
  let σ11 := (σ10.alloc (PyObj.outR (stableSortBy runSortKey scored))).1
  let σ12 := (σ11.alloc (PyObj.outR (stableSortBy runSortKey scored))).1
  let σ13 := (σ12.alloc (PyObj.outR (stableSortBy runSortKey scored))).1
  (σ13, n + 8)

/-- Store evolutions that allocate fresh objects freely but write only at ids
`≥ n`: the shape of every pipeline run over a store whose first `n` objects
are the caller's. -/
inductive StExt (n : ℕ) (σ : Store PyObj) : Store PyObj → Prop where
  | refl : StExt n σ σ
  | alloc (σ' : Store PyObj) (t : PyObj) : StExt n σ σ' → StExt n σ (σ'.alloc t).1
  | write (σ' : Store PyObj) (j : ℕ) (t : PyObj) :
      StExt n σ σ' → n ≤ j → StExt n σ (σ'.write j t)

/-- Characters that the `cleanBase` pipeline maps to themselves: lowered word
characters, the hyphen, the apostrophe and the single space. -/
def goodChar (c : Char) : Bool :=
  (isWordCh c && (lowCh c == c)) || c == '-' || c == '\'' || c == ' '

/-- No two adjacent whitespace characters. -/
def noSpaceRun : List Char → Bool
  | [] => true
  | [_] => true
  | a :: b :: t => !(isSpaceCh a && isSpaceCh b) && noSpaceRun (b :: t)

/-- The first character, if any, is not whitespace. -/
def headNotSpace (l : List Char) : Bool :=
  match l.head? with
  | some c => !isSpaceCh c
  | none => true

/-- The last character, if any, is not whitespace. -/
def lastNotSpace (l : List Char) : Bool :=
  match l.getLast? with
  | some c => !isSpaceCh c
  | none => true

/-- Fixed-point form of `cleanBase`: only `goodChar`s, isolated single spaces,
no leading or trailing space. -/
def isCleanForm (l : List Char) : Bool :=
  l.all goodChar && noSpaceRun l && headNotSpace l && lastNotSpace l

/-! ## Fuzzy similarity (claim C6)

The repository source contains no fuzzy matcher: both joiners perform exact
canonical-key merges only.  The similarity score the spec describes is
therefore modelled from the spec's words. -/

/-- Split into maximal non-whitespace tokens (accumulator-based). -/
def tokensAux : List Char → List Char → List (List Char)
  | [], acc => if acc.isEmpty then [] else [acc.reverse]
  | c :: cs, acc =>
    if isSpaceCh c then
      (if acc.isEmpty then tokensAux cs [] else acc.reverse :: tokensAux cs [])
    else tokensAux cs (c :: acc)

/-- The whitespace-separated tokens of a string. -/
def tokensOf (l : List Char) : List (List Char) := tokensAux l []

/-- Insert a token into a sorted token list. -/
def insertTok (t : List Char) : List (List Char) → List (List Char)
  | [] => [t]
  | u :: us => if strLtB t u then t :: u :: us else u :: insertTok t us

/-- Sort a token list lexicographically. -/
def sortToks (l : List (List Char)) : List (List Char) := l.foldr insertTok []

/-- Modelled from the spec: `fuzzy_match`'s "normalized-string similarity
score (e.g., token-based ratio)" on a 0–100 scale is absent from the source,
so only the property the spec pins down is modelled: a token-sort ratio is
`100` exactly when the two strings consist of the same sorted sequence of
whitespace-separated tokens.  Scores of other pairs are irrelevant to the
theorems below and are modelled as `0`. -/
def tokenSortScore (a b : String) : ℕ :=
  if sortToks (tokensOf a.data) = sortToks (tokensOf b.data) then 100 else 0

/-! ## Helper lemmas -/

theorem charOfNat_toNat (n : ℕ) (h : n < 55296) : (Char.ofNat n).toNat = n := by
  unfold Char.ofNat
  rw [dif_pos (Or.inl h)]
  simp [Char.ofNatAux, Char.toNat, UInt32.toNat, UInt32.ofNatCore]

theorem qAdd_eq (a b : ℚ) : qAdd a b = a + b := by
  unfold qAdd
  rw [Rat.mkRat_eq_div]
  have ha : ((a.den : ℚ)) ≠ 0 := by exact_mod_cast a.den_nz
  have hb : ((b.den : ℚ)) ≠ 0 := by exact_mod_cast b.den_nz
  conv_rhs => rw [← Rat.num_div_den a, ← Rat.num_div_den b]
  rw [div_add_div _ _ ha hb]
  push_cast
  ring_nf

theorem qSub_eq (a b : ℚ) : qSub a b = a - b := by
  unfold qSub
  rw [Rat.mkRat_eq_div]
  have ha : ((a.den : ℚ)) ≠ 0 := by exact_mod_cast a.den_nz
  have hb : ((b.den : ℚ)) ≠ 0 := by exact_mod_cast b.den_nz
  conv_rhs => rw [← Rat.num_div_den a, ← Rat.num_div_den b]
  rw [div_sub_div _ _ ha hb]
  push_cast
  ring_nf

theorem modelMarginRun_eq (hO hD aO aD hca : ℚ) :
    modelMarginRun hO hD aO aD hca = (hO - aD) - (aO - hD) + hca := by
  unfold modelMarginRun
  rw [qSub_eq, qSub_eq, qSub_eq, qAdd_eq]

theorem modelMarginModel_eq (hO hD aO aD hca : ℚ) :
    modelMarginModel hO hD aO aD hca = (hO - hD) - (aO - aD) + hca := by
  unfold modelMarginModel netEff
  rw [qSub_eq, qSub_eq, qSub_eq, qAdd_eq]

theorem stableSortBy_perm {α : Type} (key : ℕ × α → ℕ × ℚ × ℕ) (l : List α) :
    (stableSortBy key l).Perm l := by
  unfold stableSortBy
  have h := (List.perm_insertionSort (fun a b => le3 (key a) (key b)) l.enum).map Prod.snd
  rwa [List.enum_map_snd] at h

theorem mem_stableSortBy {α : Type} {key : ℕ × α → ℕ × ℚ × ℕ} {l : List α} {a : α} :
    a ∈ stableSortBy key l ↔ a ∈ l :=
  (stableSortBy_perm key l).mem_iff

theorem length_stableSortBy {α : Type} (key : ℕ × α → ℕ × ℚ × ℕ) (l : List α) :
    (stableSortBy key l).length = l.length :=
  (stableSortBy_perm key l).length_eq

/-- Membership in `joinedRowsR` exposes the construction of the row. -/
theorem mem_joinedRowsR {ratings : List RatingRowR} {odds : List OddsRowR} {hca : ℚ}
    {j : JRowR} (h : j ∈ joinedRowsR ratings odds hca) :
    ∃ o ∈ odds, ∃ hm ∈ leftMatchesR o.HOME_KEY ratings,
      ∃ am ∈ leftMatchesR o.AWAY_KEY ratings, j = mkJRow hca o hm am := by
  simp only [joinedRowsR, List.mem_flatMap, List.mem_map] at h
  obtain ⟨o, ho, hm, hhm, am, ham, rfl⟩ := h
  exact ⟨o, ho, hm, hhm, am, ham, rfl⟩

/-- Membership in `joinedRows` (model.py) exposes the construction of the row. -/
theorem mem_joinedRows {rs : List PrepRow} {os : List OddsRowM} {hca : ℚ}
    {j : JoinedRowM} (h : j ∈ joinedRows rs os hca) :
    ∃ o ∈ os, ∃ hm ∈ leftMatches (_clean o.home) rs,
      ∃ am ∈ leftMatches (_clean o.away) rs, j = mkJoinedM hca o hm am := by
  simp only [joinedRows, List.mem_flatMap, List.mem_map] at h
  obtain ⟨o, ho, hm, hhm, am, ham, rfl⟩ := h
  exact ⟨o, ho, hm, hhm, am, ham, rfl⟩

/-! ## Claim C7 -/

/-- C7 is false as stated: at the Scenario-A ratings (`h_AdjO = 120`,
`h_AdjD = 95`, `a_AdjO = 115`, `a_AdjD = 98`, `hca = 0.6`) run.py's
cross-efficiency form gives `2.6` while model.py's net-efficiency form gives
`8.6`; the two implementations disagree whenever `h_AdjD ≠ a_AdjD`. -/
theorem C7_counterexample :
    modelMarginRun 120 95 115 98 (mkRat 3 5) = mkRat 13 5
    ∧ modelMarginModel 120 95 115 98 (mkRat 3 5) = mkRat 43 5
    ∧ modelMarginRun 120 95 115 98 (mkRat 3 5) ≠ modelMarginModel 120 95 115 98 (mkRat 3 5) := by
  refine ⟨by decide, by decide, by decide⟩

/-- C7 (amended): `(h_AdjO − a_AdjD) − (a_AdjO − h_AdjD) + hca` does **not**
equal `(h_AdjO − h_AdjD) − (a_AdjO − a_AdjD) + hca` in general: the two
model-margin implementations differ by exactly `2·(h_AdjD − a_AdjD)`, and
they agree precisely when the two defensive ratings are equal. -/
theorem C7_margin_forms_differ :
    (∀ hO hD aO aD hca : ℚ,
       modelMarginRun hO hD aO aD hca = modelMarginModel hO hD aO aD hca + 2 * (hD - aD))
    ∧ (∀ hO hD aO aD hca : ℚ,
       modelMarginRun hO hD aO aD hca = modelMarginModel hO hD aO aD hca ↔ hD = aD)
    ∧ (∀ a b c d e : ℚ,
       oModelRun (some a) (some b) (some c) (some d) e = some (modelMarginRun a b c d e))
    ∧ ∀ a b c d e : ℚ,
        oAdd (oSub (oSub (some a) (some b)) (oSub (some c) (some d))) (some e) =
          some (modelMarginModel a b c d e) := by
  refine ⟨?_, ?_, ?_, ?_⟩
  · intro hO hD aO aD hca
    rw [modelMarginRun_eq, modelMarginModel_eq]
    ring
  · intro hO hD aO aD hca
    rw [modelMarginRun_eq, modelMarginModel_eq]
    constructor
    · intro h
      linarith
    · intro h
      rw [h]
  · intro a b c d e
    simp [oModelRun]
  · intro a b c d e
    simp [oAdd, oSub, modelMarginModel, netEff]

theorem C7_margin_forms_differ_witness :
    modelMarginRun 100 90 105 90 7 = modelMarginModel 100 90 105 90 7 :=
  (C7_margin_forms_differ.2.1 100 90 105 90 7).mpr rfl

/-! ## Claim C9 -/

/-- C9: both canonicalizers are total Lean functions; a null input yields the
empty string, the empty string is handled, and (determinism) equal inputs give
equal outputs. -/
theorem C9_canonicalize_total_deterministic :
    _cleanNA none = "" ∧ norm_teamNA none = "" ∧ canonicalNA none = ""
    ∧ _cleanNA (some "") = "" ∧ canonicalNA (some "") = ""
    ∧ ∀ x y : Option String, x = y → _cleanNA x = _cleanNA y ∧ canonicalNA x = canonicalNA y := by
  refine ⟨by decide, by decide, by decide, by decide, by decide, ?_⟩
  rintro x y rfl
  exact ⟨rfl, rfl⟩

theorem C9_canonicalize_total_deterministic_witness :
    _cleanNA (some "Duke") = _cleanNA (some "Duke")
    ∧ canonicalNA (some "Duke") = canonicalNA (some "Duke") :=
  C9_canonicalize_total_deterministic.2.2.2.2.2 (some "Duke") (some "Duke") rfl

/-! ## Claim C2 -/

/-- C2 (code bug): the recommendation/ticket policy the spec describes is not
what the code does.  At a concrete away-side edge (both ratings matched,
`edge_pts = -14.4 ≤ -2`), `compute_edges` raises `ValueError` from the invalid
format specifier `"+ .1f"` instead of producing the away ticket; and
`join_and_score` emits a non-empty home ticket on a row whose edge
(`-1.4`, `|edge| < 2`) the claim maps to PASS with an empty ticket. -/
theorem C2_ticket_policy_eval :
    (compute_edges
        [{ Team := "Hometown", AdjO := some 100, AdjD := some 100 },
         { Team := "Visitors", AdjO := some 110, AdjD := some 90 }]
        [{ home := "Hometown", away := "Visitors",
           home_spread := some 5, market_home_margin := some (-5) }]
        (mkRat 3 5) 2).toOption = none
    ∧ (join_and_score
        [{ Team := "Hometown", AdjO := some 100, AdjD := some 100,
           TEAM_KEY := canonical "Hometown" },
         { Team := "Visitors", AdjO := some 101, AdjD := some 100,
           TEAM_KEY := canonical "Visitors" }]
        [{ home := "Hometown", away := "Visitors", home_spread := some (-1),
           HOME_KEY := canonical "Hometown", AWAY_KEY := canonical "Visitors" }]
        (mkRat 3 5)).map (fun j => (j.edge_pts, j.ticket)) =
      [(some (mkRat (-7) 5), "Hometown -1.0")] := by
  constructor
  · decide
  · decide

/-! ## Claim C3: counterexample -/

/-- C3 is false as stated: two market-line rows with the same `pair_key`
(home/away swapped) are both emitted — `compute_edges` never deduplicates on
`__key`, so the output has two rows for one distinct pair key. -/
theorem C3_counterexample :
    _pair_key "Duke" "North Carolina" = _pair_key "North Carolina" "Duke"
    ∧ (compute_edges []
        [{ home := "Duke", away := "North Carolina",
           home_spread := some (-5), market_home_margin := some 5 },
         { home := "North Carolina", away := "Duke",
           home_spread := some 5, market_home_margin := some (-5) }]
        (mkRat 3 5) 2).toOption.map List.length = some 2 := by
  constructor
  · decide
  · decide

/-! ## Claim C4: counterexample -/

/-- C4 is false as stated for `join_and_score`: on a row whose away rating is
unmatched, the model margin and edge are absent, but the ticket is the
formatted home spread, not the empty string the claim requires. -/
theorem C4_counterexample :
    (join_and_score
        [{ Team := "Hometown", AdjO := some 100, AdjD := some 90,
           TEAM_KEY := canonical "Hometown" }]
        [{ home := "Hometown", away := "Visitors", home_spread := some (-3),
           HOME_KEY := canonical "Hometown", AWAY_KEY := canonical "Visitors" }]
        (mkRat 3 5)).map
      (fun j => (j.a_AdjO, j.model_home_margin, j.edge_pts, j.ticket)) =
    [(none, none, none, "Hometown -3.0")] := by
  decide

/-! ## Claim C5: counterexample -/

/-- C5 is false as stated for `join_and_score`: it sorts only by `edge_pts`
(absent last) with no market-line grouping, so an unlined row (absent
`market_home_margin`) precedes a lined row whose edge is absent. -/
theorem C5_counterexample :
    (join_and_score []
        [{ home := "Alpha", away := "Beta", home_spread := none,
           HOME_KEY := "AK", AWAY_KEY := "BK" },
         { home := "Gamma", away := "Delta", home_spread := some (-3),
           HOME_KEY := "GK", AWAY_KEY := "DK" }]
        (mkRat 3 5)).map JRowR.market_home_margin = [none, some 3] := by
  decide

/-! ## Claim C8: counterexample -/

/-- C8 is false as stated: `_clean` is not idempotent, because the alias value
for "Cal State Northridge" is `"cal st. northridge"`, whose period a second
pass strips. -/
theorem C8_counterexample :
    _clean (_clean "Cal State Northridge") ≠ _clean "Cal State Northridge" := by
  decide

/-! ## Claim C1 -/

/-- C1: on every joined row, `market_home_margin` is exactly the negation of a
present `home_spread` (run.py line 339), and whenever both the model and the
market margin are present, `edge_pts` is exactly their difference
(run.py line 341, model.py line 95) — no rounding anywhere. -/
theorem C1_market_and_edge_exact :
    (∀ (ratings : List RatingRowR) (odds : List OddsRowR) (hca : ℚ) (j : JRowR),
       j ∈ join_and_score ratings odds hca →
         (∀ s : ℚ, j.home_spread = some s → j.market_home_margin = some (-s))
         ∧ ∀ m k : ℚ, j.model_home_margin = some m → j.market_home_margin = some k →
             j.edge_pts = some (m - k))
    ∧ ∀ (rs : List PrepRow) (os : List OddsRowM) (hca : ℚ) (j : JoinedRowM),
        j ∈ joinedRows rs os hca →
          ∀ m k : ℚ, j.model_home_margin = some m → j.market_home_margin = some k →
            j.edge_pts = some (m - k) := by
  constructor
  · intro ratings odds hca j hj
    unfold join_and_score at hj
    rw [mem_stableSortBy] at hj
    obtain ⟨o, ho, hm, hhm, am, ham, rfl⟩ := mem_joinedRowsR hj
    constructor
    · intro s hs
      simp only [mkJRow] at hs ⊢
      rw [hs]
      simp [oNeg]
    · intro m k hmm hkk
      simp only [mkJRow] at hmm hkk ⊢
      rw [hmm, hkk]
      simp [oSub, qSub_eq]
  · intro rs os hca j hj
    obtain ⟨o, ho, hm, hhm, am, ham, rfl⟩ := mem_joinedRows hj
    intro m k hmm hkk
    simp only [mkJoinedM] at hmm hkk ⊢
    rw [hmm, hkk]
    simp [oSub, qSub_eq]

theorem C1_market_and_edge_exact_witness :
    JRowR.market_home_margin
        { home := "Duke", away := "UNC", home_spread := some (-5),
          h_AdjO := some 120, h_AdjD := some 95, a_AdjO := some 115, a_AdjD := some 98,
          model_home_margin := some (mkRat 13 5), market_home_margin := some 5,
          edge_pts := some (mkRat (-12) 5), ticket := "Duke -5.0" } = some (-(-5))
    ∧ JRowR.edge_pts
        { home := "Duke", away := "UNC", home_spread := some (-5),
          h_AdjO := some 120, h_AdjD := some 95, a_AdjO := some 115, a_AdjD := some 98,
          model_home_margin := some (mkRat 13 5), market_home_margin := some 5,
          edge_pts := some (mkRat (-12) 5), ticket := "Duke -5.0" } = some (mkRat 13 5 - 5) := by
  have hmem :
      ({ home := "Duke", away := "UNC", home_spread := some (-5),
         h_AdjO := some 120, h_AdjD := some 95, a_AdjO := some 115, a_AdjD := some 98,
         model_home_margin := some (mkRat 13 5), market_home_margin := some 5,
         edge_pts := some (mkRat (-12) 5), ticket := "Duke -5.0" } : JRowR) ∈
        join_and_score
          [{ Team := "Duke", AdjO := some 120, AdjD := some 95, TEAM_KEY := "DUKE" },
           { Team := "UNC", AdjO := some 115, AdjD := some 98, TEAM_KEY := "UNC" }]
          [{ home := "Duke", away := "UNC", home_spread := some (-5),
             HOME_KEY := "DUKE", AWAY_KEY := "UNC" }] (mkRat 3 5) := by decide
  have h := C1_market_and_edge_exact.1 _ _ _ _ hmem
  exact ⟨h.1 (-5) (by decide), h.2 (mkRat 13 5) 5 (by decide) (by decide)⟩

/-! ## Claim C6 -/

/-- C6 is false as stated: on a market line whose home name
("State North Florida") canonicalizes differently from the only ratings entry
("North Florida State") while the two canonical forms have identical sorted
token multisets — token-based similarity 100, at or above any cutoff in the
spec's 78–86 range — the joiner still attaches no ratings: it performs no
fuzzy fallback at all. -/
theorem C6_counterexample :
    _clean "State North Florida" ≠ _clean "North Florida State"
    ∧ tokenSortScore (_clean "State North Florida") (_clean "North Florida State") = 100
    ∧ (compute_edges
        [{ Team := "North Florida State", AdjO := some 110, AdjD := some 100 }]
        [{ home := "State North Florida", away := "Duke",
           home_spread := some (-3), market_home_margin := some 3 }]
        (mkRat 3 5) 2).toOption.map (List.map OutRowM.h_AdjO) = some [none] := by
  refine ⟨by decide, by decide, by decide⟩

/-- C6 (amended): when the exact canonical-key lookup fails, the joiner
attaches no ratings for that side — there is no fuzzy fallback in either
implementation. -/
theorem C6_no_fuzzy_fallback :
    (∀ (rs : List PrepRow) (os : List OddsRowM) (hca : ℚ) (j : JoinedRowM),
       j ∈ joinedRows rs os hca →
         ((∀ p ∈ rs, p.team_clean ≠ j.home_clean) →
            j.h_Team = none ∧ j.h_AdjO = none ∧ j.h_AdjD = none ∧ j.h_Net = none)
         ∧ ((∀ p ∈ rs, p.team_clean ≠ j.away_clean) →
            j.a_Team = none ∧ j.a_AdjO = none ∧ j.a_AdjD = none ∧ j.a_Net = none))
    ∧ ∀ (ratings : List RatingRowR) (odds : List OddsRowR) (hca : ℚ),
        (∀ o ∈ odds, ∀ r ∈ ratings, r.TEAM_KEY ≠ o.HOME_KEY ∧ r.TEAM_KEY ≠ o.AWAY_KEY) →
        ∀ j ∈ join_and_score ratings odds hca,
          j.h_AdjO = none ∧ j.h_AdjD = none ∧ j.a_AdjO = none ∧ j.a_AdjD = none := by
  constructor
  · intro rs os hca j hj
    obtain ⟨o, ho, hm, hhm, am, ham, rfl⟩ := mem_joinedRows hj
    constructor
    · intro hnone
      have hempty : matchRows (_clean o.home) rs = [] := by
        unfold matchRows
        rw [List.filter_eq_nil_iff]
        intro p hp
        simp only [beq_iff_eq]
        exact fun hc => hnone p hp (by simpa [mkJoinedM] using hc)
      rw [leftMatches, hempty] at hhm
      simp only [List.mem_singleton] at hhm
      subst hhm
      simp [mkJoinedM]
    · intro hnone
      have hempty : matchRows (_clean o.away) rs = [] := by
        unfold matchRows
        rw [List.filter_eq_nil_iff]
        intro p hp
        simp only [beq_iff_eq]
        exact fun hc => hnone p hp (by simpa [mkJoinedM] using hc)
      rw [leftMatches, hempty] at ham
      simp only [List.mem_singleton] at ham
      subst ham
      simp [mkJoinedM]
  · intro ratings odds hca hnone j hj
    unfold join_and_score at hj
    rw [mem_stableSortBy] at hj
    obtain ⟨o, ho, hm, hhm, am, ham, rfl⟩ := mem_joinedRowsR hj
    have hemptyH : matchRowsR o.HOME_KEY ratings = [] := by
      unfold matchRowsR
      rw [List.filter_eq_nil_iff]
      intro r hr
      simp only [beq_iff_eq]
      exact (hnone o ho r hr).1
    have hemptyA : matchRowsR o.AWAY_KEY ratings = [] := by
      unfold matchRowsR
      rw [List.filter_eq_nil_iff]
      intro r hr
      simp only [beq_iff_eq]
      exact (hnone o ho r hr).2
    rw [leftMatchesR, hemptyH] at hhm
    rw [leftMatchesR, hemptyA] at ham
    simp only [List.mem_singleton] at hhm ham
    subst hhm
    subst ham
    simp [mkJRow]

theorem C6_no_fuzzy_fallback_witness :
    JoinedRowM.h_Team
        (mkJoinedM (mkRat 3 5)
          { home := "State North Florida", away := "Duke",
            home_spread := some (-3), market_home_margin := some 3 } none none) = none := by
  have hmem :
      (mkJoinedM (mkRat 3 5)
        { home := "State North Florida", away := "Duke",
          home_spread := some (-3), market_home_margin := some 3 } none none) ∈
        joinedRows (_prep_ratings [{ Team := "North Florida State", AdjO := some 110, AdjD := some 100 }])
          [{ home := "State North Florida", away := "Duke",
             home_spread := some (-3), market_home_margin := some 3 }] (mkRat 3 5) := by decide
  exact ((C6_no_fuzzy_fallback.1 _ _ _ _ hmem).1 (by decide)).1

/-! ## Claim C4 (amended part) -/

theorem oSub_none_left (x : Option ℚ) : oSub none x = none := by cases x <;> rfl

theorem oSub_none_right (x : Option ℚ) : oSub x none = none := by cases x <;> rfl

theorem oAdd_none_left (x : Option ℚ) : oAdd none x = none := by cases x <;> rfl

theorem oModelRun_none {hO hD aO aD : Option ℚ} (hca : ℚ)
    (h : hO = none ∨ hD = none ∨ aO = none ∨ aD = none) :
    oModelRun hO hD aO aD hca = none := by
  rcases hO with _ | a <;> rcases hD with _ | b <;> rcases aO with _ | c <;>
    rcases aD with _ | d <;> simp [oModelRun] at h ⊢

/-- Every option delivered by `leftMatches` is `none` or a matching member. -/
theorem mem_leftMatches {k : String} {rs : List PrepRow} {hm : Option PrepRow}
    (h : hm ∈ leftMatches k rs) :
    hm = none ∨ ∃ p ∈ rs, hm = some p ∧ p.team_clean = k := by
  unfold leftMatches at h
  cases hmr : matchRows k rs with
  | nil => rw [hmr] at h; simp at h; exact Or.inl h
  | cons m ms =>
    rw [hmr] at h
    simp only [List.mem_map] at h
    obtain ⟨p, hp, rfl⟩ := h
    have : p ∈ matchRows k rs := hmr ▸ hp
    unfold matchRows at this
    have := List.mem_filter.mp this
    exact Or.inr ⟨p, this.1, rfl, by simpa using this.2⟩

/-- Rows of `_prep_ratings` satisfy the `Net = AdjO - AdjD` invariant. -/
theorem net_of_mem_prep {p : PrepRow} {rs : List RatingRow} (h : p ∈ _prep_ratings rs) :
    p.Net = oSub p.AdjO p.AdjD := by
  unfold _prep_ratings at h
  simp only [List.mem_map] at h
  obtain ⟨r, _, rfl⟩ := h
  rfl

/-- Inverting one row of a successful `apply(_ticket)` pass. -/
theorem mem_ticketed {thr : ℚ} :
    ∀ {js : List JoinedRowM} {rows : List OutRowM}, ticketed thr js = Except.ok rows →
      ∀ {r : OutRowM}, r ∈ rows →
        ∃ jr ∈ js, ∃ t, _ticket thr jr = Except.ok t ∧ r = toOutM t jr := by
  intro js
  induction js with
  | nil =>
    intro rows h r hr
    simp only [ticketed, Except.ok.injEq] at h
    subst h
    simp at hr
  | cons j js ih =>
    intro rows h r hr
    rw [ticketed] at h
    cases ht : _ticket thr j with
    | error e => rw [ht] at h; simp at h
    | ok t =>
      cases hts : ticketed thr js with
      | error e => rw [ht, hts] at h; simp at h
      | ok rest =>
        rw [ht, hts] at h
        simp only [Except.ok.injEq] at h
        subst h
        rcases List.mem_cons.mp hr with rfl | hmem
        · exact ⟨j, List.mem_cons_self _ _, t, ht, rfl⟩
        · obtain ⟨jr, hjr, t2, h1, h2⟩ := ih hts hmem
          exact ⟨jr, List.mem_cons_of_mem _ hjr, t2, h1, h2⟩

/-- A row whose `edge_pts` is absent always gets the empty ticket (both the
`>=` and the `<=` comparison against NaN are false). -/
theorem ticket_of_edge_none {thr : ℚ} {j : JoinedRowM} (h : j.edge_pts = none) :
    _ticket thr j = Except.ok "" := by
  unfold _ticket
  cases j.market_home_margin with
  | none => rfl
  | some mhm => rw [h]; rfl

/-- The model margin of a joined model.py row is absent as soon as any of the
four rating columns is absent, provided both merge results respect the
prep-row `Net` invariant. -/
theorem mkJoinedM_model_none {hca : ℚ} {o : OddsRowM} {hm am : Option PrepRow}
    (hhm : ∀ p, hm = some p → p.Net = oSub p.AdjO p.AdjD)
    (ham : ∀ p, am = some p → p.Net = oSub p.AdjO p.AdjD)
    (hmiss : (mkJoinedM hca o hm am).h_AdjO = none ∨ (mkJoinedM hca o hm am).h_AdjD = none
      ∨ (mkJoinedM hca o hm am).a_AdjO = none ∨ (mkJoinedM hca o hm am).a_AdjD = none) :
    (mkJoinedM hca o hm am).model_home_margin = none
    ∧ (mkJoinedM hca o hm am).edge_pts = none := by
  have hnet : hm.bind (fun p => p.Net) = none ∨ am.bind (fun p => p.Net) = none := by
    rcases hm with _ | p
    · exact Or.inl rfl
    · rcases am with _ | q
      · exact Or.inr rfl
      · simp only [mkJoinedM, Option.some_bind] at hmiss ⊢
        rw [hhm p rfl, ham q rfl]
        rcases hmiss with h | h | h | h
        · exact Or.inl (by rw [h, oSub_none_left])
        · exact Or.inl (by rw [h, oSub_none_right])
        · exact Or.inr (by rw [h, oSub_none_left])
        · exact Or.inr (by rw [h, oSub_none_right])
  have hmodel : (mkJoinedM hca o hm am).model_home_margin = none := by
    simp only [mkJoinedM]
    rcases hnet with h | h
    · rw [h, oSub_none_left, oAdd_none_left]
    · rw [h, oSub_none_right, oAdd_none_left]
  refine ⟨hmodel, ?_⟩
  have : (mkJoinedM hca o hm am).edge_pts =
      oSub (mkJoinedM hca o hm am).model_home_margin o.market_home_margin := rfl
  rw [this, hmodel, oSub_none_left]

/-- C4 (amended): an unmatched (or NaN) rating on either side always
propagates to an absent `model_home_margin` and an absent `edge_pts` — never
silently a zero — in both implementations; `compute_edges` additionally gives
such rows an empty ticket, while `join_and_score`'s ticket still shows the
home spread (see `C4_counterexample`). -/
theorem C4_missing_rating_propagates :
    (∀ (ratings : List RatingRowR) (odds : List OddsRowR) (hca : ℚ) (j : JRowR),
       j ∈ join_and_score ratings odds hca →
         (j.h_AdjO = none ∨ j.h_AdjD = none ∨ j.a_AdjO = none ∨ j.a_AdjD = none) →
         j.model_home_margin = none ∧ j.edge_pts = none)
    ∧ ∀ (rs : List RatingRow) (os : List OddsRowM) (hca thr : ℚ) (out : List OutRowM)
        (j : OutRowM), compute_edges rs os hca thr = Except.ok out → j ∈ out →
          (j.h_AdjO = none ∨ j.h_AdjD = none ∨ j.a_AdjO = none ∨ j.a_AdjD = none) →
          j.model_home_margin = none ∧ j.edge_pts = none ∧ j.ticket = "" := by
  constructor
  · intro ratings odds hca j hj hmiss
    unfold join_and_score at hj
    rw [mem_stableSortBy] at hj
    obtain ⟨o, ho, hm, hhm, am, ham, rfl⟩ := mem_joinedRowsR hj
    have hmodel : (mkJRow hca o hm am).model_home_margin = none := by
      simp only [mkJRow] at hmiss ⊢
      exact oModelRun_none hca hmiss
    refine ⟨hmodel, ?_⟩
    have : (mkJRow hca o hm am).edge_pts =
        oSub (mkJRow hca o hm am).model_home_margin (oNeg o.home_spread) := rfl
    rw [this, hmodel, oSub_none_left]
  · intro rs os hca thr out j hok hj hmiss
    unfold compute_edges at hok
    cases htick : ticketed thr (joinedRows (_prep_ratings rs) os hca) with
    | error e => rw [htick] at hok; exact absurd hok (by simp)
    | ok rows =>
      rw [htick] at hok
      simp only [Except.ok.injEq] at hok
      subst hok
      rw [mem_stableSortBy] at hj
      obtain ⟨jr, hjr, t, hticket, rfl⟩ := mem_ticketed htick hj
      obtain ⟨o, ho, hm, hhm, am, ham, rfl⟩ := mem_joinedRows hjr
      have hinvH : ∀ p, hm = some p → p.Net = oSub p.AdjO p.AdjD := by
        intro p hp
        rcases mem_leftMatches hhm with h | ⟨q, hq, hq2, _⟩
        · rw [hp] at h; cases h
        · rw [hp] at hq2
          cases hq2
          exact net_of_mem_prep hq
      have hinvA : ∀ p, am = some p → p.Net = oSub p.AdjO p.AdjD := by
        intro p hp
        rcases mem_leftMatches ham with h | ⟨q, hq, hq2, _⟩
        · rw [hp] at h; cases h
        · rw [hp] at hq2
          cases hq2
          exact net_of_mem_prep hq
      have hfields := mkJoinedM_model_none hinvH hinvA (by simpa [toOutM] using hmiss)
      refine ⟨by simpa [toOutM] using hfields.1, by simpa [toOutM] using hfields.2, ?_⟩
      have := @ticket_of_edge_none thr _ hfields.2
      rw [this] at hticket
      have ht : t = "" := by simpa using hticket.symm
      simp [toOutM, ht]

theorem C4_missing_rating_propagates_witness :
    JRowR.model_home_margin
        { home := "Hometown", away := "Visitors", home_spread := some (-3),
          h_AdjO := some 100, h_AdjD := some 90, a_AdjO := none, a_AdjD := none,
          model_home_margin := none, market_home_margin := some 3, edge_pts := none,
          ticket := "Hometown -3.0" } = none := by
  have hmem :
      ({ home := "Hometown", away := "Visitors", home_spread := some (-3),
         h_AdjO := some 100, h_AdjD := some 90, a_AdjO := none, a_AdjD := none,
         model_home_margin := none, market_home_margin := some 3, edge_pts := none,
         ticket := "Hometown -3.0" } : JRowR) ∈
        join_and_score
          [{ Team := "Hometown", AdjO := some 100, AdjD := some 90, TEAM_KEY := "HOMETOWN" }]
          [{ home := "Hometown", away := "Visitors", home_spread := some (-3),
             HOME_KEY := "HOMETOWN", AWAY_KEY := "VISITORS" }] (mkRat 3 5) := by decide
  exact (C4_missing_rating_propagates.1 _ _ _ _ hmem (Or.inr (Or.inr (Or.inl rfl)))).1

/-! ## Claim C3 (amended part) -/

theorem filter_beq_length_le_one {α : Type} (f : α → String) (k : String) :
    ∀ l : List α, l.Pairwise (fun a b => f a ≠ f b) →
      (l.filter fun x => f x == k).length ≤ 1 := by
  intro l
  induction l with
  | nil => intro _; simp
  | cons r rs ih =>
    intro h
    rw [List.pairwise_cons] at h
    rw [List.filter_cons]
    by_cases hr : f r == k
    · rw [if_pos hr]
      have hnil : (rs.filter fun x => f x == k) = [] := by
        rw [List.filter_eq_nil_iff]
        intro p hp
        simp only [beq_iff_eq]
        intro hpk
        exact h.1 p hp (by rw [hpk, ← beq_iff_eq.mp hr])
      simp [hnil]
    · rw [if_neg hr]
      exact ih h.2

theorem leftMatches_length_one {k : String} {rs : List PrepRow}
    (h : rs.Pairwise fun a b => a.team_clean ≠ b.team_clean) :
    (leftMatches k rs).length = 1 := by
  have hle := filter_beq_length_le_one (fun p => p.team_clean) k rs h
  unfold leftMatches matchRows
  cases hmr : rs.filter fun r => r.team_clean == k with
  | nil => rfl
  | cons m ms =>
    rw [hmr] at hle
    simp only [List.length_cons] at hle
    have : ms = [] := List.eq_nil_of_length_eq_zero (by omega)
    subst this
    rfl

theorem leftMatchesR_length_one {k : String} {rs : List RatingRowR}
    (h : rs.Pairwise fun a b => a.TEAM_KEY ≠ b.TEAM_KEY) :
    (leftMatchesR k rs).length = 1 := by
  have hle := filter_beq_length_le_one (fun p => p.TEAM_KEY) k rs h
  unfold leftMatchesR matchRowsR
  cases hmr : rs.filter fun r => r.TEAM_KEY == k with
  | nil => rfl
  | cons m ms =>
    rw [hmr] at hle
    simp only [List.length_cons] at hle
    have : ms = [] := List.eq_nil_of_length_eq_zero (by omega)
    subst this
    rfl

theorem joinedRows_length {rs : List PrepRow} {os : List OddsRowM} {hca : ℚ}
    (h : rs.Pairwise fun a b => a.team_clean ≠ b.team_clean) :
    (joinedRows rs os hca).length = os.length := by
  unfold joinedRows
  induction os with
  | nil => rfl
  | cons o os ih =>
    rw [List.flatMap_cons, List.length_append, ih, List.length_flatMap]
    have h1 := leftMatches_length_one (k := _clean o.home) h
    obtain ⟨hm, hhm⟩ := List.length_eq_one.mp h1
    rw [hhm]
    simp [leftMatches_length_one (k := _clean o.away) h]
    omega

theorem joinedRowsR_length {ratings : List RatingRowR} {odds : List OddsRowR} {hca : ℚ}
    (h : ratings.Pairwise fun a b => a.TEAM_KEY ≠ b.TEAM_KEY) :
    (joinedRowsR ratings odds hca).length = odds.length := by
  unfold joinedRowsR
  induction odds with
  | nil => rfl
  | cons o os ih =>
    rw [List.flatMap_cons, List.length_append, ih, List.length_flatMap]
    have h1 := leftMatchesR_length_one (k := o.HOME_KEY) h
    obtain ⟨hm, hhm⟩ := List.length_eq_one.mp h1
    rw [hhm]
    simp [leftMatchesR_length_one (k := o.AWAY_KEY) h]
    omega

theorem ticketed_ok_length {thr : ℚ} :
    ∀ {js : List JoinedRowM} {rows : List OutRowM},
      ticketed thr js = Except.ok rows → rows.length = js.length := by
  intro js
  induction js with
  | nil =>
    intro rows h
    simp only [ticketed, Except.ok.injEq] at h
    subst h
    rfl
  | cons j js ih =>
    intro rows h
    rw [ticketed] at h
    cases ht : _ticket thr j with
    | error e => rw [ht] at h; simp at h
    | ok t =>
      cases hts : ticketed thr js with
      | error e => rw [ht, hts] at h; simp at h
      | ok rest =>
        rw [ht, hts] at h
        simp only [Except.ok.injEq] at h
        subst h
        simp [ih hts]

/-- C3 (amended): the joiners never drop a market line — when the ratings
table's canonical keys are unique, the output has exactly one row per input
market-line row — but they perform **no** `pair_key` deduplication: rows
sharing a pair key are all kept (`C3_counterexample`). -/
theorem C3_all_market_lines_kept :
    (∀ (rs : List RatingRow) (os : List OddsRowM) (hca thr : ℚ) (out : List OutRowM),
       (_prep_ratings rs).Pairwise (fun a b => a.team_clean ≠ b.team_clean) →
       compute_edges rs os hca thr = Except.ok out → out.length = os.length)
    ∧ ∀ (ratings : List RatingRowR) (odds : List OddsRowR) (hca : ℚ),
        ratings.Pairwise (fun a b => a.TEAM_KEY ≠ b.TEAM_KEY) →
        (join_and_score ratings odds hca).length = odds.length := by
  constructor
  · intro rs os hca thr out hnd hok
    unfold compute_edges at hok
    cases htick : ticketed thr (joinedRows (_prep_ratings rs) os hca) with
    | error e => rw [htick] at hok; exact absurd hok (by simp)
    | ok rows =>
      rw [htick] at hok
      simp only [Except.ok.injEq] at hok
      subst hok
      rw [length_stableSortBy, ticketed_ok_length htick, joinedRows_length hnd]
  · intro ratings odds hca hnd
    unfold join_and_score
    rw [length_stableSortBy, joinedRowsR_length hnd]

theorem C3_all_market_lines_kept_witness :
    (join_and_score
      [{ Team := "Duke", AdjO := some 120, AdjD := some 95, TEAM_KEY := "DUKE" }]
      [{ home := "Duke", away := "UNC", home_spread := some (-5),
         HOME_KEY := "DUKE", AWAY_KEY := "UNC" }] (mkRat 3 5)).length = 1 :=
  C3_all_market_lines_kept.2 _ _ (mkRat 3 5) (by decide)

/-! ## Claim C5 (amended part) -/

theorem lt3_trans {x y z : ℕ × ℚ × ℕ} (h1 : lt3 x y) (h2 : lt3 y z) : lt3 x z := by
  unfold lt3 at *
  rcases h1 with h1 | ⟨e1, h1⟩ <;> rcases h2 with h2 | ⟨e2, h2⟩
  · exact Or.inl (h1.trans h2)
  · exact Or.inl (e2 ▸ h1)
  · exact Or.inl (e1 ▸ h2)
  · refine Or.inr ⟨e1.trans e2, ?_⟩
    rcases h1 with h1 | ⟨f1, h1⟩ <;> rcases h2 with h2 | ⟨f2, h2⟩
    · exact Or.inl (h1.trans h2)
    · exact Or.inl (f2 ▸ h1)
    · exact Or.inl (f1 ▸ h2)
    · exact Or.inr ⟨f1.trans f2, h1.trans h2⟩

theorem le3_trans {x y z : ℕ × ℚ × ℕ} (h1 : le3 x y) (h2 : le3 y z) : le3 x z := by
  rcases h1 with h1 | rfl
  · rcases h2 with h2 | rfl
    · exact Or.inl (lt3_trans h1 h2)
    · exact Or.inl h1
  · exact h2

theorem le3_total (x y : ℕ × ℚ × ℕ) : le3 x y ∨ le3 y x := by
  unfold le3 lt3
  rcases Nat.lt_trichotomy x.1 y.1 with h | h | h
  · exact Or.inl (Or.inl (Or.inl h))
  · rcases lt_trichotomy x.2.1 y.2.1 with h2 | h2 | h2
    · exact Or.inl (Or.inl (Or.inr ⟨h, Or.inl h2⟩))
    · rcases Nat.lt_trichotomy x.2.2 y.2.2 with h3 | h3 | h3
      · exact Or.inl (Or.inl (Or.inr ⟨h, Or.inr ⟨h2, h3⟩⟩))
      · exact Or.inl (Or.inr (Prod.ext h (Prod.ext h2 h3)))
      · exact Or.inr (Or.inl (Or.inr ⟨h.symm, Or.inr ⟨h2.symm, h3⟩⟩))
    · exact Or.inr (Or.inl (Or.inr ⟨h.symm, Or.inl h2⟩))
  · exact Or.inr (Or.inl (Or.inl h))

theorem stableSortBy_sorted {α : Type} (key : ℕ × α → ℕ × ℚ × ℕ) (l : List α) :
    (l.enum.insertionSort fun a b => le3 (key a) (key b)).Pairwise
      (fun a b => le3 (key a) (key b)) := by
  haveI : IsTotal (ℕ × α) (fun a b => le3 (key a) (key b)) := ⟨fun a b => le3_total _ _⟩
  haveI : IsTrans (ℕ × α) (fun a b => le3 (key a) (key b)) := ⟨fun _ _ _ => le3_trans⟩
  exact List.sorted_insertionSort _ _

/-- C5 (amended): both outputs are permutations of the joined rows and are
sorted by the total order on (sort key, original position), hence stably.
`modelSortKey` realises model.py's ordering — rows with a market line first,
then `edge_pts` descending with absent edges last within each group — while
`runSortKey` realises run.py's ordering, which sorts **only** by `edge_pts`
descending with absent edges last and has no market-line grouping
(`C5_counterexample`). -/
theorem C5_sort_order :
    (∀ (rs : List RatingRow) (os : List OddsRowM) (hca thr : ℚ) (rows : List OutRowM),
       ticketed thr (joinedRows (_prep_ratings rs) os hca) = Except.ok rows →
       compute_edges rs os hca thr = Except.ok (stableSortBy modelSortKey rows))
    ∧ (∀ (ratings : List RatingRowR) (odds : List OddsRowR) (hca : ℚ),
       join_and_score ratings odds hca = stableSortBy runSortKey (joinedRowsR ratings odds hca))
    ∧ (∀ l : List OutRowM,
       (stableSortBy modelSortKey l).Perm l
       ∧ (l.enum.insertionSort fun a b => le3 (modelSortKey a) (modelSortKey b)).Pairwise
           (fun a b => le3 (modelSortKey a) (modelSortKey b))
       ∧ stableSortBy modelSortKey l =
           (l.enum.insertionSort fun a b => le3 (modelSortKey a) (modelSortKey b)).map Prod.snd)
    ∧ ∀ l : List JRowR,
        (stableSortBy runSortKey l).Perm l
        ∧ (l.enum.insertionSort fun a b => le3 (runSortKey a) (runSortKey b)).Pairwise
            (fun a b => le3 (runSortKey a) (runSortKey b))
        ∧ stableSortBy runSortKey l =
            (l.enum.insertionSort fun a b => le3 (runSortKey a) (runSortKey b)).map Prod.snd := by
  refine ⟨?_, ?_, ?_, ?_⟩
  · intro rs os hca thr rows htick
    unfold compute_edges
    rw [htick]
  · intro ratings odds hca
    rfl
  · intro l
    exact ⟨stableSortBy_perm _ _, stableSortBy_sorted _ _, rfl⟩
  · intro l
    exact ⟨stableSortBy_perm _ _, stableSortBy_sorted _ _, rfl⟩

theorem C5_sort_order_witness :
    compute_edges [] [] (mkRat 3 5) 2 = Except.ok (stableSortBy modelSortKey []) :=
  C5_sort_order.1 [] [] (mkRat 3 5) 2 [] rfl

/-! ## Claim C10 -/

theorem StExt.length_le {n : ℕ} {σ σ' : Store PyObj} (h : StExt n σ σ') :
    σ.tabs.length ≤ σ'.tabs.length := by
  induction h with
  | refl => exact le_refl _
  | alloc σ1 t h ih =>
    simp only [Store.alloc, List.length_append, List.length_singleton]
    omega
  | write σ1 j t h hj ih =>
    simpa only [Store.write, List.length_set] using ih

theorem StExt.read_eq {n : ℕ} {σ σ' : Store PyObj} (h : StExt n σ σ')
    (i : ℕ) (hi : i < n) (hn : n ≤ σ.tabs.length) : σ'.read i = σ.read i := by
  induction h with
  | refl => rfl
  | alloc σ1 t h ih =>
    have hlen : i < σ1.tabs.length := lt_of_lt_of_le hi (hn.trans h.length_le)
    simp only [Store.read, Store.alloc]
    rw [List.getD_append _ _ _ _ hlen]
    exact ih
  | write σ1 j t h hj ih =>
    simp only [Store.read, Store.write]
    rw [List.getD_eq_getElem?_getD, List.getElem?_set_ne (by omega : j ≠ i),
      ← List.getD_eq_getElem?_getD]
    exact ih

set_option maxHeartbeats 1000000 in
theorem stext_computeEdgesSt (σ : Store PyObj) (rid oid : ℕ) (hca thr : ℚ) :
    StExt σ.tabs.length σ (computeEdgesSt σ rid oid hca thr).1 := by
  unfold computeEdgesSt
  dsimp only
  split
  all_goals
    repeat
      first
      | apply StExt.alloc
      | refine StExt.write _ _ _ ?_ (by omega)
  all_goals exact StExt.refl

theorem stext_joinAndScoreSt (σ : Store PyObj) (rid oid : ℕ) (hca : ℚ) :
    StExt σ.tabs.length σ (joinAndScoreSt σ rid oid hca).1 := by
  unfold joinAndScoreSt
  dsimp only
  repeat
    first
    | apply StExt.alloc
    | refine StExt.write _ _ _ ?_ (by omega)
  exact StExt.refl

/-- C10: neither `compute_edges` nor `join_and_score` mutates its inputs:
after a run over the object store — even one aborted by the `_ticket`
`ValueError` — the ratings and odds objects passed in hold exactly their
original contents; every column assignment targeted a frame allocated by
`copy`/`rename`/`add_prefix`/`merge` during the run. -/
theorem C10_inputs_not_mutated :
    ∀ (σ : Store PyObj) (rid oid : ℕ) (hca thr : ℚ),
      rid < σ.tabs.length → oid < σ.tabs.length →
      ((computeEdgesSt σ rid oid hca thr).1.read rid = σ.read rid
        ∧ (computeEdgesSt σ rid oid hca thr).1.read oid = σ.read oid)
      ∧ (joinAndScoreSt σ rid oid hca).1.read rid = σ.read rid
        ∧ (joinAndScoreSt σ rid oid hca).1.read oid = σ.read oid := by
  intro σ rid oid hca thr hr ho
  have h1 := stext_computeEdgesSt σ rid oid hca thr
  have h2 := stext_joinAndScoreSt σ rid oid hca
  exact ⟨⟨h1.read_eq rid hr le_rfl, h1.read_eq oid ho le_rfl⟩,
    h2.read_eq rid hr le_rfl, h2.read_eq oid ho le_rfl⟩

theorem C10_inputs_not_mutated_witness :
    (joinAndScoreSt ⟨[PyObj.ratingsR [], PyObj.oddsR []]⟩ 0 1 (mkRat 3 5)).1.read 0 =
      Store.read ⟨[PyObj.ratingsR [], PyObj.oddsR []]⟩ 0 :=
  (C10_inputs_not_mutated ⟨[PyObj.ratingsR [], PyObj.oddsR []]⟩ 0 1 (mkRat 3 5) 2
    (by decide) (by decide)).2.1

/-! ## Claim C8: character-level lemmas -/

theorem char_toNat_inj {c d : Char} (h : c.toNat = d.toNat) : c = d :=
  Char.ext (UInt32.ext h)

theorem lowCh_fix_of_not_upper {c : Char} (h : isUpperA c = false) : lowCh c = c := by
  unfold lowCh
  simp [h]

theorem lowCh_toNat_of_upper {c : Char} (h : isUpperA c = true) :
    (lowCh c).toNat = c.toNat + 32 := by
  have hb : 65 ≤ c.toNat ∧ c.toNat ≤ 90 := by
    simpa [isUpperA, Bool.and_eq_true, decide_eq_true_eq] using h
  unfold lowCh
  rw [if_pos h]
  exact charOfNat_toNat _ (by omega)

theorem isSpaceCh_iff_toNat (c : Char) :
    isSpaceCh c = true ↔
      c.toNat = 32 ∨ c.toNat = 9 ∨ c.toNat = 10 ∨ c.toNat = 13 ∨ c.toNat = 12 ∨ c.toNat = 11 := by
  constructor
  · intro h
    simp only [isSpaceCh, Bool.or_eq_true, beq_iff_eq] at h
    rcases h with ((((rfl | rfl) | rfl) | rfl) | rfl) | rfl <;> simp
  · intro h
    rcases h with h | h | h | h | h | h
    · have hc := char_toNat_inj (c := c) (d := ' ') (h.trans (by decide))
      subst hc; decide
    · have hc := char_toNat_inj (c := c) (d := '\t') (h.trans (by decide))
      subst hc; decide
    · have hc := char_toNat_inj (c := c) (d := '\n') (h.trans (by decide))
      subst hc; decide
    · have hc := char_toNat_inj (c := c) (d := '\r') (h.trans (by decide))
      subst hc; decide
    · have hc := char_toNat_inj (c := c) (d := Char.ofNat 12) (h.trans (by decide))
      subst hc; decide
    · have hc := char_toNat_inj (c := c) (d := Char.ofNat 11) (h.trans (by decide))
      subst hc; decide

theorem isSpaceCh_lowCh (c : Char) : isSpaceCh (lowCh c) = isSpaceCh c := by
  by_cases hup : isUpperA c = true
  · have hb : 65 ≤ c.toNat ∧ c.toNat ≤ 90 := by
      simpa [isUpperA, Bool.and_eq_true, decide_eq_true_eq] using hup
    have ht := lowCh_toNat_of_upper hup
    have h1 : isSpaceCh (lowCh c) = false := by
      cases hx : isSpaceCh (lowCh c)
      · rfl
      · exfalso
        rcases (isSpaceCh_iff_toNat _).mp hx with h | h | h | h | h | h <;> omega
    have h2 : isSpaceCh c = false := by
      cases hx : isSpaceCh c
      · rfl
      · exfalso
        rcases (isSpaceCh_iff_toNat _).mp hx with h | h | h | h | h | h <;> omega
    rw [h1, h2]
  · rw [lowCh_fix_of_not_upper (by simpa using hup)]

theorem goodChar_space_eq {c : Char} (hg : goodChar c = true) (hs : isSpaceCh c = true) :
    c = ' ' := by
  simp only [isSpaceCh, Bool.or_eq_true, beq_iff_eq] at hs
  rcases hs with ((((rfl | rfl) | rfl) | rfl) | rfl) | rfl
  · rfl
  all_goals exact absurd hg (by decide)

theorem goodChar_no_dash {c : Char} (hg : goodChar c = true) :
    dashVariants.contains c = false := by
  cases hx : dashVariants.contains c
  · rfl
  · exfalso
    simp only [dashVariants, List.contains_cons, List.contains_nil, Bool.or_eq_true,
      beq_iff_eq, Bool.or_false] at hx
    rcases hx with rfl | rfl | rfl | rfl
    all_goals exact absurd hg (by decide)

theorem goodChar_no_amp {c : Char} (hg : goodChar c = true) : (c == '&') = false := by
  cases hx : c == '&'
  · rfl
  · rw [beq_iff_eq] at hx
    subst hx
    exact absurd hg (by decide)

theorem goodChar_punctKeep {c : Char} (hg : goodChar c = true) : punctKeep c = true := by
  simp only [goodChar, Bool.or_eq_true, Bool.and_eq_true, beq_iff_eq] at hg
  rcases hg with ((⟨hw, _⟩ | rfl) | rfl) | rfl
  · simp [punctKeep, hw]
  all_goals decide

theorem goodChar_lowCh_fix {c : Char} (hg : goodChar c = true) : lowCh c = c := by
  simp only [goodChar, Bool.or_eq_true, Bool.and_eq_true, beq_iff_eq] at hg
  rcases hg with ((⟨_, hl⟩ | rfl) | rfl) | rfl
  · exact hl
  all_goals decide

theorem goodChar_lowCh_of_punctKeep {c : Char} (hk : punctKeep c = true)
    (hns : isSpaceCh c = false) : goodChar (lowCh c) = true := by
  simp only [punctKeep, Bool.or_eq_true, beq_iff_eq] at hk
  rcases hk with ((hw | hsp) | rfl) | rfl
  · simp only [isWordCh, Bool.or_eq_true, beq_iff_eq] at hw
    rcases hw with ((hl | hu) | hd) | rfl
    · simp only [isLowerA, Bool.and_eq_true, decide_eq_true_eq] at hl
      have hup : isUpperA c = false := by
        cases hx : isUpperA c
        · rfl
        · exfalso
          have hb2 : 65 ≤ c.toNat ∧ c.toNat ≤ 90 := by
            simpa [isUpperA, Bool.and_eq_true, decide_eq_true_eq] using hx
          omega
      rw [lowCh_fix_of_not_upper hup]
      simp only [goodChar, isWordCh, isLowerA, Bool.or_eq_true, Bool.and_eq_true,
        beq_iff_eq, decide_eq_true_eq]
      exact Or.inl (Or.inl (Or.inl ⟨Or.inl (Or.inl (Or.inl ⟨hl.1, hl.2⟩)),
        lowCh_fix_of_not_upper hup⟩))
    · have hb : 65 ≤ c.toNat ∧ c.toNat ≤ 90 := by
        simpa [isUpperA, Bool.and_eq_true, decide_eq_true_eq] using hu
      have ht := lowCh_toNat_of_upper hu
      have hnup : isUpperA (lowCh c) = false := by
        cases hx : isUpperA (lowCh c)
        · rfl
        · exfalso
          have hb2 : 65 ≤ (lowCh c).toNat ∧ (lowCh c).toNat ≤ 90 := by
            simpa [isUpperA, Bool.and_eq_true, decide_eq_true_eq] using hx
          omega
      simp only [goodChar, isWordCh, isLowerA, Bool.or_eq_true, Bool.and_eq_true,
        beq_iff_eq, decide_eq_true_eq]
      exact Or.inl (Or.inl (Or.inl ⟨Or.inl (Or.inl (Or.inl ⟨by omega, by omega⟩)),
        lowCh_fix_of_not_upper hnup⟩))
    · simp only [isDigitA, Bool.and_eq_true, decide_eq_true_eq] at hd
      have hup : isUpperA c = false := by
        cases hx : isUpperA c
        · rfl
        · exfalso
          have hb2 : 65 ≤ c.toNat ∧ c.toNat ≤ 90 := by
            simpa [isUpperA, Bool.and_eq_true, decide_eq_true_eq] using hx
          omega
      rw [lowCh_fix_of_not_upper hup]
      simp only [goodChar, isWordCh, isDigitA, Bool.or_eq_true, Bool.and_eq_true,
        beq_iff_eq, decide_eq_true_eq]
      exact Or.inl (Or.inl (Or.inl ⟨Or.inl (Or.inr ⟨hd.1, hd.2⟩),
        lowCh_fix_of_not_upper hup⟩))
    · decide
  · rw [hsp] at hns
    cases hns
  · decide
  · decide

/-! ## Claim C8: list-level lemmas -/

theorem map_id_of_mem {α : Type} {f : α → α} :
    ∀ {l : List α}, (∀ c ∈ l, f c = c) → l.map f = l := by
  intro l
  induction l with
  | nil => intro _; rfl
  | cons a t ih =>
    intro h
    rw [List.map_cons, h a (List.mem_cons_self _ _), ih fun c hc => h c (List.mem_cons_of_mem _ hc)]

theorem mem_punctSub {c : Char} {l : List Char} (h : c ∈ punctSub l) : punctKeep c = true := by
  unfold punctSub at h
  rw [List.mem_map] at h
  obtain ⟨x, _, rfl⟩ := h
  by_cases hx : punctKeep x = true
  · rwa [if_pos hx]
  · rw [if_neg hx]
    decide

theorem mem_collapseWs :
    ∀ {l : List Char} {c : Char}, c ∈ collapseWs l →
      c = ' ' ∨ (c ∈ l ∧ isSpaceCh c = false) := by
  intro l
  induction l with
  | nil => intro c hc; simp [collapseWs] at hc
  | cons a t ih =>
    intro c hc
    cases t with
    | nil =>
      by_cases h : isSpaceCh a = true
      · simp [collapseWs, h] at hc
        exact Or.inl hc
      · simp only [Bool.not_eq_true] at h
        simp [collapseWs, h] at hc
        subst hc
        exact Or.inr ⟨List.mem_cons_self _ _, h⟩
    | cons b t2 =>
      rw [collapseWs] at hc
      by_cases ha : isSpaceCh a = true
      · rw [if_pos ha] at hc
        by_cases hb : isSpaceCh b = true
        · rw [if_pos hb] at hc
          rcases ih hc with h | ⟨hm, hs⟩
          · exact Or.inl h
          · exact Or.inr ⟨List.mem_cons_of_mem _ hm, hs⟩
        · rw [if_neg hb] at hc
          rcases List.mem_cons.mp hc with rfl | hc2
          · exact Or.inl rfl
          · rcases ih hc2 with h | ⟨hm, hs⟩
            · exact Or.inl h
            · exact Or.inr ⟨List.mem_cons_of_mem _ hm, hs⟩
      · rw [if_neg ha] at hc
        rcases List.mem_cons.mp hc with rfl | hc2
        · exact Or.inr ⟨List.mem_cons_self _ _, by simpa using ha⟩
        · rcases ih hc2 with h | ⟨hm, hs⟩
          · exact Or.inl h
          · exact Or.inr ⟨List.mem_cons_of_mem _ hm, hs⟩

theorem collapseWs_head_nonspace {b : Char} {t : List Char} (hb : isSpaceCh b = false) :
    ∀ c, (collapseWs (b :: t)).head? = some c → isSpaceCh c = false := by
  intro c hc
  cases t with
  | nil =>
    simp [collapseWs, hb] at hc
    rwa [← hc]
  | cons b2 t2 =>
    rw [collapseWs, if_neg (by simp [hb])] at hc
    simp only [List.head?_cons, Option.some.injEq] at hc
    rwa [← hc]

theorem noSpaceRun_cons_of {x : Char} {X : List Char}
    (h : isSpaceCh x = false ∨ ∀ c, X.head? = some c → isSpaceCh c = false)
    (hX : noSpaceRun X = true) : noSpaceRun (x :: X) = true := by
  cases X with
  | nil => rfl
  | cons y ys =>
    have hy : isSpaceCh x = false ∨ isSpaceCh y = false := by
      rcases h with h | h
      · exact Or.inl h
      · exact Or.inr (h y rfl)
    rw [noSpaceRun]
    rcases hy with h | h <;> simp [h, hX]

theorem noSpaceRun_collapseWs : ∀ l : List Char, noSpaceRun (collapseWs l) = true := by
  intro l
  induction l with
  | nil => rfl
  | cons a t ih =>
    cases t with
    | nil =>
      by_cases h : isSpaceCh a = true
      · simp [collapseWs, h, noSpaceRun]
      · simp only [Bool.not_eq_true] at h
        simp [collapseWs, h, noSpaceRun]
    | cons b t2 =>
      rw [collapseWs]
      by_cases ha : isSpaceCh a = true
      · rw [if_pos ha]
        by_cases hb : isSpaceCh b = true
        · rw [if_pos hb]
          exact ih
        · rw [if_neg hb]
          simp only [Bool.not_eq_true] at hb
          exact noSpaceRun_cons_of
            (Or.inr fun c hc => collapseWs_head_nonspace hb c hc) ih
      · rw [if_neg ha]
        simp only [Bool.not_eq_true] at ha
        exact noSpaceRun_cons_of (Or.inl ha) ih

theorem head?_dropWhile_not {p : Char → Bool} :
    ∀ {l : List Char} {c : Char}, (l.dropWhile p).head? = some c → p c = false := by
  intro l
  induction l with
  | nil => intro c hc; simp at hc
  | cons a t ih =>
    intro c hc
    by_cases h : p a = true
    · rw [List.dropWhile_cons, if_pos h] at hc
      exact ih hc
    · rw [List.dropWhile_cons, if_neg h] at hc
      simp only [List.head?_cons, Option.some.injEq] at hc
      subst hc
      simpa using h

theorem stripChars_prefixOf (l : List Char) : stripChars l <+: l.dropWhile isSpaceCh := by
  unfold stripChars
  have hs := List.dropWhile_suffix (l := (l.dropWhile isSpaceCh).reverse) isSpaceCh
  have := List.reverse_prefix.mpr hs
  rwa [List.reverse_reverse] at this

theorem stripChars_within (l : List Char) : stripChars l <:+: l :=
  (stripChars_prefixOf l).isInfix.trans (List.dropWhile_suffix isSpaceCh).isInfix

theorem head?_eq_of_prefixOf {α : Type} {o d : List α} (h : o <+: d) {c : α}
    (hc : o.head? = some c) : d.head? = some c := by
  obtain ⟨t, rfl⟩ := h
  cases o with
  | nil => cases hc
  | cons x xs => simpa using hc

theorem headNotSpace_stripChars (l : List Char) : headNotSpace (stripChars l) = true := by
  unfold headNotSpace
  cases hc : (stripChars l).head? with
  | none => rfl
  | some c =>
    have hd := head?_eq_of_prefixOf (stripChars_prefixOf l) hc
    simp [head?_dropWhile_not hd]

theorem lastNotSpace_stripChars (l : List Char) : lastNotSpace (stripChars l) = true := by
  unfold lastNotSpace
  cases hc : (stripChars l).getLast? with
  | none => rfl
  | some c =>
    unfold stripChars at hc
    rw [List.getLast?_reverse] at hc
    simp [head?_dropWhile_not hc]

theorem noSpaceRun_iff_chain :
    ∀ l : List Char,
      noSpaceRun l = true ↔ l.Chain' fun a b => ¬(isSpaceCh a = true ∧ isSpaceCh b = true) := by
  intro l
  induction l with
  | nil => simp [noSpaceRun]
  | cons a t ih =>
    cases t with
    | nil => simp [noSpaceRun]
    | cons b t2 =>
      rw [noSpaceRun, List.chain'_cons, ← ih]
      simp only [Bool.and_eq_true, Bool.not_and, Bool.or_eq_true, Bool.not_eq_true',
        and_congr_left_iff]
      intro _
      constructor
      · rintro (h | h) ⟨ha, hb⟩
        · rw [h] at ha
          exact Bool.noConfusion ha
        · rw [h] at hb
          exact Bool.noConfusion hb
      · intro h
        by_cases hsa : isSpaceCh a = true
        · by_cases hsb : isSpaceCh b = true
          · exact absurd ⟨hsa, hsb⟩ h
          · exact Or.inr (by simpa using hsb)
        · exact Or.inl (by simpa using hsa)

theorem noSpaceRun_within {l m : List Char} (h : m <:+: l) (hl : noSpaceRun l = true) :
    noSpaceRun m = true :=
  (noSpaceRun_iff_chain m).mpr ( List.Chain'.infix ((noSpaceRun_iff_chain l).mp hl) h)

theorem noSpaceRun_map_lowCh {l : List Char} (h : noSpaceRun l = true) :
    noSpaceRun (l.map lowCh) = true := by
  rw [noSpaceRun_iff_chain, List.chain'_map]
  refine (((noSpaceRun_iff_chain l).mp h).imp ?_)
  intro a b hab
  rwa [isSpaceCh_lowCh, isSpaceCh_lowCh]

/-! ## Claim C8: fixed-point lemmas and idempotence -/

theorem cleanForm_of_pipeline (X : List Char) (hX : ∀ c ∈ X, punctKeep c = true) :
    isCleanForm ((stripChars (collapseWs X)).map lowCh) = true := by
  unfold isCleanForm
  simp only [Bool.and_eq_true]
  refine ⟨⟨⟨?_, ?_⟩, ?_⟩, ?_⟩
  · rw [List.all_eq_true]
    intro c hc
    rw [List.mem_map] at hc
    obtain ⟨c0, hc0, rfl⟩ := hc
    have hc0' : c0 ∈ collapseWs X := (stripChars_within _).subset hc0
    rcases mem_collapseWs hc0' with rfl | ⟨hmem, hns⟩
    · decide
    · exact goodChar_lowCh_of_punctKeep (hX c0 hmem) hns
  · exact noSpaceRun_map_lowCh (noSpaceRun_within (stripChars_within _) (noSpaceRun_collapseWs X))
  · unfold headNotSpace
    rw [List.head?_map]
    cases hh : (stripChars (collapseWs X)).head? with
    | none => rfl
    | some c0 =>
      have := headNotSpace_stripChars (collapseWs X)
      unfold headNotSpace at this
      rw [hh] at this
      simpa [isSpaceCh_lowCh] using this
  · unfold lastNotSpace
    rw [List.getLast?_map]
    cases hh : (stripChars (collapseWs X)).getLast? with
    | none => rfl
    | some c0 =>
      have := lastNotSpace_stripChars (collapseWs X)
      unfold lastNotSpace at this
      rw [hh] at this
      simpa [isSpaceCh_lowCh] using this

theorem cleanForm_cleanBase (s : String) : isCleanForm (cleanBase s).data = true :=
  cleanForm_of_pipeline _ fun _ hc => mem_punctSub hc

theorem dropWhile_eq_self_of_head {p : Char → Bool} {l : List Char}
    (h : ∀ c, l.head? = some c → p c = false) : l.dropWhile p = l := by
  cases l with
  | nil => rfl
  | cons a t => rw [List.dropWhile_cons, if_neg (by simp [h a rfl])]

theorem stripChars_eq_self {l : List Char} (hh : headNotSpace l = true)
    (hl : lastNotSpace l = true) : stripChars l = l := by
  unfold stripChars
  have h1 : l.dropWhile isSpaceCh = l := by
    apply dropWhile_eq_self_of_head
    intro c hc
    unfold headNotSpace at hh
    rw [hc] at hh
    simpa using hh
  rw [h1]
  have h2 : l.reverse.dropWhile isSpaceCh = l.reverse := by
    apply dropWhile_eq_self_of_head
    intro c hc
    rw [List.head?_reverse] at hc
    unfold lastNotSpace at hl
    rw [hc] at hl
    simpa using hl
  rw [h2, List.reverse_reverse]

theorem dashSub_eq_self {l : List Char} (h : ∀ c ∈ l, goodChar c = true) : dashSub l = l :=
  map_id_of_mem fun c hc => by
    have hb := goodChar_no_dash (h c hc)
    simp only [hb]
    simp

theorem ampSub_eq_self {l : List Char} (h : ∀ c ∈ l, goodChar c = true) : ampSub l = l := by
  induction l with
  | nil => rfl
  | cons a t ih =>
    unfold ampSub
    rw [List.flatMap_cons]
    rw [if_neg (by simp [goodChar_no_amp (h a (List.mem_cons_self _ _))])]
    have := ih fun c hc => h c (List.mem_cons_of_mem _ hc)
    unfold ampSub at this
    rw [this]
    rfl

theorem punctSub_eq_self {l : List Char} (h : ∀ c ∈ l, goodChar c = true) : punctSub l = l :=
  map_id_of_mem fun c hc => by rw [if_pos (goodChar_punctKeep (h c hc))]

theorem collapseWs_eq_self :
    ∀ {l : List Char}, (∀ c ∈ l, goodChar c = true) → noSpaceRun l = true →
      collapseWs l = l := by
  intro l
  induction l with
  | nil => intro _ _; rfl
  | cons a t ih =>
    intro hg hr
    cases t with
    | nil =>
      by_cases h : isSpaceCh a = true
      · have := goodChar_space_eq (hg a (List.mem_cons_self _ _)) h
        subst this
        rfl
      · simp only [Bool.not_eq_true] at h
        simp [collapseWs, h]
    | cons b t2 =>
      rw [collapseWs]
      have htail : noSpaceRun (b :: t2) = true := by
        rw [noSpaceRun, Bool.and_eq_true] at hr
        exact hr.2
      have hgt : ∀ c ∈ b :: t2, goodChar c = true :=
        fun c hc => hg c (List.mem_cons_of_mem _ hc)
      by_cases ha : isSpaceCh a = true
      · have ha' := goodChar_space_eq (hg a (List.mem_cons_self _ _)) ha
        have hb : isSpaceCh b = false := by
          rw [noSpaceRun, Bool.and_eq_true] at hr
          have := hr.1
          rw [ha] at this
          simpa using this
        rw [if_pos ha, if_neg (by simp [hb]), ih hgt htail, ha']
      · rw [if_neg ha, ih hgt htail]

theorem cleanBase_fix {t : String} (h : isCleanForm t.data = true) : cleanBase t = t := by
  unfold isCleanForm at h
  simp only [Bool.and_eq_true] at h
  obtain ⟨⟨⟨hall, hrun⟩, hhead⟩, hlast⟩ := h
  rw [List.all_eq_true] at hall
  have hpipe : (stripChars (collapseWs (punctSub (ampSub (dashSub
      (stripChars t.data)))))).map lowCh = t.data := by
    rw [stripChars_eq_self hhead hlast, dashSub_eq_self hall, ampSub_eq_self hall,
      punctSub_eq_self hall, collapseWs_eq_self hall hrun,
      stripChars_eq_self hhead hlast]
    exact map_id_of_mem fun c hc => goodChar_lowCh_fix (hall c hc)
  show String.mk _ = t
  rw [hpipe]

/-! ## Claim C8: run.py `canonical` is idempotent -/

theorem norm_team_chars (s : String) : ∀ c ∈ (norm_team s).data, isUpperAlnumCh c = true := by
  intro c hc
  unfold norm_team at hc
  exact (List.mem_filter.mp hc).2

theorem strReplaceAux_id {P : Char → Bool} {pat repl : List Char}
    (hpat : ∃ c ∈ pat, P c = false) :
    ∀ (fuel : ℕ) (l : List Char), (∀ c ∈ l, P c = true) → strReplaceAux pat repl fuel l = l := by
  intro fuel
  induction fuel with
  | zero => intro l h; cases l <;> rfl
  | succ n ih =>
    intro l h
    cases l with
    | nil => rfl
    | cons c cs =>
      rw [strReplaceAux]
      have hpre : (!pat.isEmpty && pat.isPrefixOf (c :: cs)) = false := by
        obtain ⟨d, hd, hPd⟩ := hpat
        cases hp : pat.isPrefixOf (c :: cs)
        · simp
        · exfalso
          have hsub := ( List.isPrefixOf_iff_prefix.mp hp).subset hd
          rw [h d hsub] at hPd
          exact Bool.noConfusion hPd
      rw [hpre, if_neg (by simp)]
      rw [ih cs fun d hd => h d (List.mem_cons_of_mem _ hd)]

theorem strReplace_id {P : Char → Bool} {pat repl l : List Char}
    (hpat : ∃ c ∈ pat, P c = false) (h : ∀ c ∈ l, P c = true) : strReplace pat repl l = l :=
  strReplaceAux_id hpat _ _ h

theorem upCh_fix_of_upperAlnum {c : Char} (h : isUpperAlnumCh c = true) : upCh c = c := by
  have hl : isLowerA c = false := by
    cases hx : isLowerA c
    · rfl
    · exfalso
      simp only [isLowerA, Bool.and_eq_true, decide_eq_true_eq] at hx
      simp only [isUpperAlnumCh, isUpperA, isDigitA, Bool.or_eq_true, Bool.and_eq_true,
        decide_eq_true_eq] at h
      rcases h with h | h <;> omega
  unfold upCh
  simp [hl]

theorem norm_team_fix {t : String} (h : ∀ c ∈ t.data, isUpperAlnumCh c = true) :
    norm_team t = t := by
  unfold norm_team
  dsimp only
  rw [strReplace_id (P := isUpperAlnumCh) (by decide) h,
    strReplace_id (P := isUpperAlnumCh) (by decide) h,
    strReplace_id (P := isUpperAlnumCh) (by decide) h,
    strReplace_id (P := isUpperAlnumCh) (by decide) h,
    strReplace_id (P := isUpperAlnumCh) (by decide) h,
    map_id_of_mem fun c hc => upCh_fix_of_upperAlnum (h c hc),
    List.filter_eq_self.mpr h]

theorem canonical_idem (s : String) : canonical (canonical s) = canonical s := by
  unfold canonical
  cases hfind : runAliases.find? (fun p => p.1 == norm_team s) with
  | none =>
    simp only [aliasGet, hfind]
    rw [norm_team_fix (norm_team_chars s)]
    simp only [aliasGet, hfind]
  | some p =>
    have hmem := List.mem_of_find?_eq_some hfind
    simp only [aliasGet, hfind]
    simp only [runAliases, List.mem_cons, List.not_mem_nil, or_false] at hmem
    rcases hmem with rfl | rfl | rfl | rfl | rfl | rfl | rfl | rfl
    all_goals decide

/-! ## Claim C8: the idempotence theorems -/

theorem _clean_idem (s : String) (hne : _clean s ≠ "cal st. northridge") :
    _clean (_clean s) = _clean s := by
  have hform := cleanForm_cleanBase s
  unfold _clean at hne ⊢
  cases hfind : cleanAliases.find? (fun p => p.1 == cleanBase s) with
  | none =>
    simp only [aliasGet, hfind]
    rw [cleanBase_fix hform]
    simp only [aliasGet, hfind]
  | some p =>
    have hp1 : p.1 = cleanBase s := by
      have := List.find?_some hfind
      rwa [beq_iff_eq] at this
    have hmem := List.mem_of_find?_eq_some hfind
    simp only [aliasGet, hfind] at hne ⊢
    simp only [cleanAliases, List.mem_cons, List.not_mem_nil, or_false] at hmem
    rcases hmem with rfl | rfl | rfl | rfl | rfl | rfl | rfl | rfl | rfl | rfl | rfl | rfl
    · decide
    · decide
    · rw [← hp1] at hform
      exact absurd hform (by decide)
    · decide
    · rw [← hp1] at hform
      exact absurd hform (by decide)
    · exact absurd rfl hne
    · exact absurd rfl hne
    · decide
    · rw [← hp1] at hform
      exact absurd hform (by decide)
    · rw [← hp1] at hform
      exact absurd hform (by decide)
    · rw [← hp1] at hform
      exact absurd hform (by decide)
    · rw [← hp1] at hform
      exact absurd hform (by decide)

/-- C8 (amended): run.py's `canonical` is idempotent on every string, and
model.py's `_clean` is idempotent on every string whose cleaned form is not
`"cal st. northridge"` — the one alias value containing punctuation that a
second pass strips (see `C8_counterexample`). -/
theorem C8_canonicalize_idempotent :
    (∀ s : String, canonical (canonical s) = canonical s)
    ∧ ∀ s : String, _clean s ≠ "cal st. northridge" → _clean (_clean s) = _clean s :=
  ⟨canonical_idem, _clean_idem⟩

theorem C8_canonicalize_idempotent_witness :
    _clean "Duke" ≠ "cal st. northridge" ∧ _clean (_clean "Duke") = _clean "Duke" :=
  ⟨by decide, C8_canonicalize_idempotent.2 "Duke" (by decide)⟩
